import Mathlib

/-!
Verification development for the LamAna laminate-analysis core: the
geometry-string parser, stack builder, dimensional (LFrame) calculator and
the model handshake.  The repository snapshot ships only the documentation
(notebooks, LPEPs, the embedded `Wilson_LT` model source); the Python core
modules themselves are absent, so the definitions below are modelled from
the specification and from the behavioural statements in the in-repo
documentation.  Thicknesses are modelled as exact decimal numbers
(numerator over a power of ten) rather than IEEE floats.
-/

deriving instance DecidableEq for Except

namespace Lamana

/-! ### Decimal numerals

A thickness token of a geometry string is a decimal numeral.  `Dec n k`
denotes the value `n / 10^k`; parsing keeps the digits exactly as written,
which mirrors how `float`-formatted tokens round-trip through the parser. -/

/-- Modelled from the spec: thickness values are non-negative decimal
numbers (spec section 3, "outer: float>=0").  `num / 10 ^ exp`. -/
structure Dec where
  num : Nat
  exp : Nat
deriving DecidableEq, Repr

/-- Rational value of a decimal thickness. -/
def Dec.toQ (d : Dec) : ℚ := (d.num : ℚ) / (10 : ℚ) ^ d.exp

/-- Zero-thickness placeholders denote an absent zone (spec section 6). -/
def Dec.isPos (d : Dec) : Bool := d.num ≠ 0

/-- The ten digit characters. -/
def digitChar (d : Nat) : Char :=
  ['0', '1', '2', '3', '4', '5', '6', '7', '8', '9'].getD d '0'

/-- Numeric value of a digit character. -/
def digitVal (c : Char) : Nat := c.toNat - 48

/-- Big-endian decimal digits of a natural number. -/
def natDigits (n : Nat) : List Char :=
  if n = 0 then ['0'] else ((Nat.digits 10 n).map digitChar).reverse

/-- Parse a non-empty all-digit string into a natural number. -/
def parseNatD (cs : List Char) : Option Nat :=
  if cs ≠ [] ∧ cs.all Char.isDigit then
    some (cs.foldl (fun a c => 10 * a + digitVal c) 0)
  else none

/-- `m` written with exactly `k` digits (leading zeros), for `m < 10 ^ k`. -/
def padDigits (k m : Nat) : List Char :=
  List.replicate (k - (natDigits m).length) '0' ++ natDigits m

/-- Render a decimal value the way the canonical geometry string does:
always with a fractional part (`400` prints as `400.0`). -/
def printDec (d : Dec) : List Char :=
  match d with
  | ⟨n, 0⟩ => natDigits n ++ ['.', '0']
  | ⟨n, k + 1⟩ =>
      natDigits (n / 10 ^ (k + 1)) ++ '.' :: padDigits (k + 1) (n % 10 ^ (k + 1))

/-- Printing then reparsing maps `⟨n, 0⟩` to `⟨10 * n, 1⟩` and fixes
everything else; `printDec` is constant on this normalisation. -/
def Dec.stabilize (d : Dec) : Dec :=
  match d with
  | ⟨n, 0⟩ => ⟨10 * n, 1⟩
  | ⟨n, k + 1⟩ => ⟨n, k + 1⟩

/-! ### Character-list splitting (the grammar separators) -/

/-- Split a character list at every occurrence of `sep`. -/
def splitOnC (sep : Char) : List Char → List (List Char)
  | [] => [[]]
  | c :: cs =>
      let r := splitOnC sep cs
      if c = sep then [] :: r
      else (c :: r.headD []) :: r.tail

/-- Join character lists with commas (inverse of splitting on `','`). -/
def joinComma : List (List Char) → List Char
  | [] => []
  | [a] => a
  | a :: rest => a ++ ',' :: joinComma rest

/-- Parse a decimal token: digits with an optional single point. -/
def parseDec (cs : List Char) : Option Dec :=
  match splitOnC '.' cs with
  | [w] => (parseNatD w).map (fun a => ⟨a, 0⟩)
  | [w, f] =>
      match parseNatD w, parseNatD f with
      | some a, some b => some ⟨a * 10 ^ f.length + b, f.length⟩
      | _, _ => none
  | _ => none

/-! ### Numeral lemmas -/

theorem digitChar_isDigit {d : Nat} (h : d < 10) : (digitChar d).isDigit = true := by
  interval_cases d <;> decide

theorem digitVal_digitChar {d : Nat} (h : d < 10) : digitVal (digitChar d) = d := by
  interval_cases d <;> decide

theorem natDigits_ne_nil (n : Nat) : natDigits n ≠ [] := by
  unfold natDigits
  split
  · simp
  · simp only [ne_eq, List.reverse_eq_nil_iff, List.map_eq_nil_iff]
    exact Nat.digits_ne_nil_iff_ne_zero.mpr (by assumption)

theorem natDigits_all_digit (n : Nat) : ∀ c ∈ natDigits n, c.isDigit = true := by
  intro c hc
  unfold natDigits at hc
  split at hc
  · simp at hc; subst hc; decide
  · simp only [List.mem_reverse, List.mem_map] at hc
    obtain ⟨d, hd, rfl⟩ := hc
    exact digitChar_isDigit (Nat.digits_lt_base (by norm_num) hd)

/-- A digit character is none of the grammar separator characters. -/
theorem isDigit_ne (c : Char) (h : c.isDigit = true) :
    c ≠ '-' ∧ c ≠ ',' ∧ c ≠ '[' ∧ c ≠ ']' ∧ c ≠ 'S' ∧ c ≠ ' ' ∧ c ≠ '.' := by
  refine ⟨?_, ?_, ?_, ?_, ?_, ?_, ?_⟩ <;> (intro he; subst he; exact absurd h (by decide))

theorem parseNatD_natDigits (n : Nat) : parseNatD (natDigits n) = some n := by
  unfold parseNatD
  rw [if_pos ⟨natDigits_ne_nil n, List.all_eq_true.mpr (fun c hc => natDigits_all_digit n c hc)⟩]
  congr 1
  by_cases h0 : n = 0
  · subst h0; decide
  · unfold natDigits
    rw [if_neg h0, List.foldl_reverse, List.foldr_map]
    have : ∀ l : List Nat, (∀ d ∈ l, d < 10) →
        List.foldr (fun x y => 10 * y + digitVal (digitChar x)) 0 l = Nat.ofDigits 10 l := by
      intro l
      induction l with
      | nil => intro _; simp [Nat.ofDigits]
      | cons d l ih =>
          intro hl
          simp only [List.foldr_cons, Nat.ofDigits_cons]
          rw [ih (fun x hx => hl x (List.mem_cons_of_mem _ hx)),
            digitVal_digitChar (hl d (List.mem_cons_self _ _))]
          ring
    rw [this _ (fun d hd => Nat.digits_lt_base (by norm_num) hd), Nat.ofDigits_digits]

theorem natDigits_length_le {m k : Nat} (hk : 1 ≤ k) (h : m < 10 ^ k) :
    (natDigits m).length ≤ k := by
  unfold natDigits
  split
  · simpa using hk
  · rename_i hm
    rw [List.length_reverse, List.length_map,
      Nat.digits_len 10 m (by norm_num) hm]
    have := (Nat.lt_pow_iff_log_lt (by norm_num : (1:Nat) < 10) hm).mp h
    omega

theorem parseNatD_padDigits {k m : Nat} (hk : 1 ≤ k) (hm : m < 10 ^ k) :
    parseNatD (padDigits k m) = some m ∧ (padDigits k m).length = k := by
  have hlen := natDigits_length_le hk hm
  constructor
  · unfold parseNatD padDigits
    rw [if_pos]
    · congr 1
      rw [List.foldl_append]
      have hz : ∀ j a, List.foldl (fun a c => 10 * a + digitVal c) a (List.replicate j '0') =
          a * 10 ^ j := by
        intro j
        induction j with
        | zero => intro a; simp
        | succ i ih =>
            intro a
            rw [List.replicate_succ, List.foldl_cons, ih]
            show (10 * a + digitVal '0') * 10 ^ i = a * 10 ^ (i + 1)
            have : digitVal '0' = 0 := by decide
            rw [this]; ring
      rw [hz]
      simp only [Nat.zero_mul]
      have := parseNatD_natDigits m
      unfold parseNatD at this
      split at this
      · simpa using this
      · simp at this
    · constructor
      · simp [padDigits, natDigits_ne_nil m]
      · rw [List.all_eq_true]
        intro c hc
        rcases List.mem_append.mp hc with h | h
        · rw [List.eq_of_mem_replicate h]; decide
        · exact natDigits_all_digit m c h
  · unfold padDigits
    rw [List.length_append, List.length_replicate]
    omega

/-! ### Splitting lemmas -/

theorem splitOnC_cons_ne {sep c : Char} {cs : List Char} (h : c ≠ sep) :
    splitOnC sep (c :: cs) =
      (c :: (splitOnC sep cs).headD []) :: (splitOnC sep cs).tail := by
  conv_lhs => unfold splitOnC
  rw [if_neg h]

theorem splitOnC_cons_eq {sep : Char} {cs : List Char} :
    splitOnC sep (sep :: cs) = [] :: splitOnC sep cs := by
  conv_lhs => unfold splitOnC
  rw [if_pos rfl]

theorem splitOnC_nosep {sep : Char} {a : List Char} (h : ∀ c ∈ a, c ≠ sep) :
    splitOnC sep a = [a] := by
  induction a with
  | nil => rfl
  | cons c cs ih =>
      rw [splitOnC_cons_ne (h c (List.mem_cons_self _ _)),
        ih (fun x hx => h x (List.mem_cons_of_mem _ hx))]
      rfl

theorem splitOnC_append {sep : Char} {a b : List Char} (h : ∀ c ∈ a, c ≠ sep) :
    splitOnC sep (a ++ sep :: b) = a :: splitOnC sep b := by
  induction a with
  | nil => simpa using splitOnC_cons_eq
  | cons c cs ih =>
      rw [List.cons_append, splitOnC_cons_ne (h c (List.mem_cons_self _ _)),
        ih (fun x hx => h x (List.mem_cons_of_mem _ hx))]
      rfl

theorem splitOnC_joinComma {ls : List (List Char)} (hne : ls ≠ [])
    (h : ∀ l ∈ ls, ∀ c ∈ l, c ≠ ',') :
    splitOnC ',' (joinComma ls) = ls := by
  induction ls with
  | nil => exact absurd rfl hne
  | cons a rest ih =>
      cases rest with
      | nil => exact splitOnC_nosep (h a (List.mem_cons_self _ _))
      | cons b rs =>
          show splitOnC ',' (a ++ ',' :: joinComma (b :: rs)) = _
          rw [splitOnC_append (h a (List.mem_cons_self _ _)),
            ih (by simp) (fun l hl => h l (List.mem_cons_of_mem _ hl))]

/-! ### Decimal print/parse round trip -/

/-- Structural form of a printed decimal: integer digits, a point, then
fraction digits, all parts non-empty. -/
theorem printDec_shape (d : Dec) :
    ∃ w f : List Char, printDec d = w ++ '.' :: f ∧
      (∀ c ∈ w, c.isDigit = true) ∧ (∀ c ∈ f, c.isDigit = true) ∧ f ≠ [] := by
  match d with
  | ⟨n, 0⟩ =>
      exact ⟨natDigits n, ['0'], rfl, natDigits_all_digit n,
        by intro c hc; simp at hc; subst hc; decide, by simp⟩
  | ⟨n, k + 1⟩ =>
      refine ⟨natDigits (n / 10 ^ (k + 1)), padDigits (k + 1) (n % 10 ^ (k + 1)), rfl,
        natDigits_all_digit _, ?_, ?_⟩
      · intro c hc
        rcases List.mem_append.mp hc with h | h
        · rw [List.eq_of_mem_replicate h]; decide
        · exact natDigits_all_digit _ c h
      · simp [padDigits, natDigits_ne_nil]

theorem printDec_all_digit_or_dot (d : Dec) :
    ∀ c ∈ printDec d, c.isDigit = true ∨ c = '.' := by
  obtain ⟨w, f, heq, hw, hf, -⟩ := printDec_shape d
  rw [heq]
  intro c hc
  rcases List.mem_append.mp hc with h | h
  · exact Or.inl (hw c h)
  · rcases List.mem_cons.mp h with h | h
    · exact Or.inr h
    · exact Or.inl (hf c h)

theorem printDec_no_sep (d : Dec) :
    ∀ c ∈ printDec d, c ≠ '-' ∧ c ≠ ',' ∧ c ≠ '[' ∧ c ≠ ']' ∧ c ≠ 'S' ∧ c ≠ ' ' := by
  intro c hc
  rcases printDec_all_digit_or_dot d c hc with h | h
  · have := isDigit_ne c h
    exact ⟨this.1, this.2.1, this.2.2.1, this.2.2.2.1, this.2.2.2.2.1, this.2.2.2.2.2.1⟩
  · subst h
    refine ⟨?_, ?_, ?_, ?_, ?_, ?_⟩ <;> decide

/-- Reduction of `parseDec` on a well-shaped token. -/
theorem parseDec_split {w f : List Char} (hw : ∀ c ∈ w, c ≠ '.') (hf : ∀ c ∈ f, c ≠ '.') :
    parseDec (w ++ '.' :: f) =
      match parseNatD w, parseNatD f with
      | some a, some b => some ⟨a * 10 ^ f.length + b, f.length⟩
      | _, _ => none := by
  unfold parseDec
  rw [splitOnC_append hw, splitOnC_nosep hf]

theorem parseDec_printDec (d : Dec) : parseDec (printDec d) = some d.stabilize := by
  match d with
  | ⟨n, 0⟩ =>
      show parseDec (natDigits n ++ '.' :: ['0']) = _
      rw [parseDec_split
        (fun c hc => (isDigit_ne c (natDigits_all_digit n c hc)).2.2.2.2.2.2)
        (by intro c hc; simp at hc; subst hc; decide)]
      rw [parseNatD_natDigits]
      have h0 : parseNatD ['0'] = some 0 := by decide
      rw [h0]
      show some (⟨n * 10 ^ 1 + 0, 1⟩ : Dec) = _
      simp [Dec.stabilize]
      omega
  | ⟨n, k + 1⟩ =>
      show parseDec (natDigits (n / 10 ^ (k + 1)) ++ '.' ::
        padDigits (k + 1) (n % 10 ^ (k + 1))) = _
      have hmod : n % 10 ^ (k + 1) < 10 ^ (k + 1) :=
        Nat.mod_lt _ (Nat.pos_pow_of_pos _ (by norm_num))
      obtain ⟨hparse, hlen⟩ := parseNatD_padDigits (Nat.succ_le_succ (Nat.zero_le k)) hmod
      rw [parseDec_split
        (fun c hc => (isDigit_ne c (natDigits_all_digit _ c hc)).2.2.2.2.2.2)
        (by
          intro c hc
          rcases List.mem_append.mp hc with h | h
          · rw [List.eq_of_mem_replicate h]; decide
          · exact (isDigit_ne c (natDigits_all_digit _ c h)).2.2.2.2.2.2)]
      rw [parseNatD_natDigits, hparse, hlen]
      show some (⟨n / 10 ^ (k + 1) * 10 ^ (k + 1) + n % 10 ^ (k + 1), k + 1⟩ : Dec) = _
      simp only [Option.some.injEq, Dec.stabilize, Dec.mk.injEq, and_true]
      rw [Nat.mul_comm]
      exact Nat.div_add_mod n (10 ^ (k + 1))

theorem printDec_stabilize (d : Dec) : printDec d.stabilize = printDec d := by
  match d with
  | ⟨n, 0⟩ =>
      show natDigits (10 * n / 10 ^ 1) ++ '.' :: padDigits 1 (10 * n % 10 ^ 1) =
        natDigits n ++ ['.', '0']
      have h1 : 10 * n / 10 ^ 1 = n := by omega
      have h2 : 10 * n % 10 ^ 1 = 0 := by omega
      rw [h1, h2]
      rfl
  | ⟨n, k + 1⟩ => rfl

/-! ### The Geometry data model and parser -/

/-- Modelled from the spec: malformed geometry strings fail with
`GeometryParseError` (spec sections 4.1 and 7). -/
inductive GeometryParseError
  | badToken
  | badShape
deriving DecidableEq, Repr

/-- Modelled from the spec: `Geometry` is an immutable value with
`outer`, an ordered sequence `inner` (zero-thickness placeholders kept),
`middle`, and a `symmetric` flag derived from the trailing `S` marker
(spec section 3). -/
structure Geometry where
  outer : Dec
  inner : List Dec
  middle : Dec
  symmetric : Bool
deriving DecidableEq, Repr

/-- Inner-layer token: bracketed comma-separated values, or the shorthand of
one bare value, normalized to the bracketed list (LPEP 001 micro-PEP 1). -/
def parseInnerTok (cs : List Char) : Option (List Dec) :=
  if cs.head? = some '[' then
    if cs.tail.getLast? = some ']' then (splitOnC ',' cs.tail.dropLast).mapM parseDec
    else none
  else (parseDec cs).map (fun d => [d])

/-- Middle token with the optional trailing symmetry marker `S`
(spec section 4.1). -/
def parseMiddleTok (cs : List Char) : Option (Dec × Bool) :=
  if cs.getLast? = some 'S' then (parseDec cs.dropLast).map (fun d => (d, true))
  else (parseDec cs).map (fun d => (d, false))

/-- Modelled from the spec: `parse(input) -> Geometry`.  The implementation
module `lamana.input_` is not in the snapshot; the grammar is taken from
spec section 6 and LPEP 001 micro-PEP 11: dashes separate the three zones
outer, inner and middle; commas separate multiple inner thicknesses;
whitespace is ignored; thickness tokens are unsigned decimal numerals. -/
def parseGeometry (s : List Char) : Except GeometryParseError Geometry :=
  match splitOnC '-' (s.filter (fun c => ¬ (c = ' '))) with
  | [o, i, m] =>
      match parseDec o, parseInnerTok i, parseMiddleTok m with
      | some ov, some iv, some (mv, sym) => .ok ⟨ov, iv, mv, sym⟩
      | _, _, _ => .error .badToken
  | _ => .error .badShape

/-- Parse from a `String`. -/
def parseGeometryS (s : String) : Except GeometryParseError Geometry :=
  parseGeometry s.data

/-- Modelled from the spec: the canonical (General Convention) string form
`outer-[inner_1,inner_2,...]-middle` with an `S` marker when symmetric
(LPEP 001 micro-PEP 1, spec section 6). -/
def innerTokC (g : Geometry) : List Char :=
  '[' :: (joinComma (g.inner.map printDec) ++ [']'])

/-- Middle token of the canonical form, with the symmetry marker. -/
def middleTokC (g : Geometry) : List Char :=
  printDec g.middle ++ if g.symmetric then ['S'] else []

def canonical (g : Geometry) : List Char :=
  printDec g.outer ++ '-' :: (innerTokC g ++ '-' :: middleTokC g)

/-- Stabilise every thickness of a geometry; `canonical` cannot tell the
difference (see `printDec_stabilize`). -/
def stabilizeG (g : Geometry) : Geometry :=
  ⟨g.outer.stabilize, g.inner.map Dec.stabilize, g.middle.stabilize, g.symmetric⟩

/-! ### Round-trip lemmas for the parser -/

theorem mem_joinComma {c : Char} {ls : List (List Char)} (h : c ∈ joinComma ls) :
    (∃ l ∈ ls, c ∈ l) ∨ c = ',' := by
  induction ls with
  | nil => simp [joinComma] at h
  | cons a rest ih =>
      cases rest with
      | nil => exact Or.inl ⟨a, List.mem_cons_self _ _, h⟩
      | cons b rs =>
          have h' : c ∈ a ++ ',' :: joinComma (b :: rs) := h
          rcases List.mem_append.mp h' with h1 | h1
          · exact Or.inl ⟨a, List.mem_cons_self _ _, h1⟩
          · rcases List.mem_cons.mp h1 with h2 | h2
            · exact Or.inr h2
            · rcases ih h2 with ⟨l, hl, hc⟩ | h3
              · exact Or.inl ⟨l, List.mem_cons_of_mem _ hl, hc⟩
              · exact Or.inr h3

theorem splitOnC_ne_nil (sep : Char) (l : List Char) : splitOnC sep l ≠ [] := by
  cases l with
  | nil => simp [splitOnC]
  | cons c cs =>
      show (if c = sep then [] :: splitOnC sep cs
        else (c :: (splitOnC sep cs).headD []) :: (splitOnC sep cs).tail) ≠ []
      split <;> simp

theorem mapM_parseDec_printDec (l : List Dec) :
    (l.map printDec).mapM parseDec = some (l.map Dec.stabilize) := by
  induction l with
  | nil => rfl
  | cons d rest ih =>
      rw [List.map_cons, List.mapM_cons, parseDec_printDec, ih]
      rfl

theorem mapM_parseDec_ne_nil {ls : List (List Char)} {r : List Dec}
    (hl : ls ≠ []) (h : ls.mapM parseDec = some r) : r ≠ [] := by
  cases ls with
  | nil => exact absurd rfl hl
  | cons a rest =>
      rw [List.mapM_cons] at h
      cases ha : parseDec a with
      | none => rw [ha] at h; simp at h
      | some d =>
          rw [ha] at h
          cases hr : rest.mapM parseDec with
          | none => rw [hr] at h; simp at h
          | some ds =>
              rw [hr] at h
              simp only [Option.bind_eq_bind, Option.some_bind, Option.pure_def,
                Option.some.injEq] at h
              rw [← h]
              simp

/-- `parseGeometry` reduced on an input whose top level splits in three. -/
theorem parseGeometry_parts {s A B C : List Char}
    (hsp : splitOnC '-' (s.filter (fun c => ¬ (c = ' '))) = [A, B, C]) :
    parseGeometry s =
      match parseDec A, parseInnerTok B, parseMiddleTok C with
      | some ov, some iv, some (mv, sym) => .ok ⟨ov, iv, mv, sym⟩
      | _, _, _ => .error .badToken := by
  unfold parseGeometry
  rw [hsp]

theorem parseInnerTok_printed (l : List Dec) (hne : l ≠ []) :
    parseInnerTok ('[' :: (joinComma (l.map printDec) ++ [']'])) =
      some (l.map Dec.stabilize) := by
  unfold parseInnerTok
  simp only [List.head?_cons, List.tail_cons, if_true, reduceIte]
  show (if (joinComma (l.map printDec) ++ [']']).getLast? = some ']' then
      ((splitOnC ',' (joinComma (l.map printDec) ++ [']']).dropLast).mapM parseDec)
    else none) = _
  rw [List.getLast?_concat, if_pos rfl, List.dropLast_concat]
  rw [splitOnC_joinComma (by simpa using hne)
    (by
      intro x hx c hc
      rcases List.mem_map.mp hx with ⟨d, -, rfl⟩
      exact (printDec_no_sep d c hc).2.1)]
  exact mapM_parseDec_printDec l

theorem parseMiddleTok_printed (d : Dec) (sym : Bool) :
    parseMiddleTok (printDec d ++ if sym then ['S'] else []) =
      some (d.stabilize, sym) := by
  cases sym with
  | true =>
      show parseMiddleTok (printDec d ++ ['S']) = _
      unfold parseMiddleTok
      rw [List.getLast?_concat, if_pos rfl, List.dropLast_concat, parseDec_printDec]
      rfl
  | false =>
      show parseMiddleTok (printDec d ++ []) = _
      rw [List.append_nil]
      unfold parseMiddleTok
      rw [if_neg, parseDec_printDec]
      · rfl
      · obtain ⟨w, f, heq, -, hf, hfne⟩ := printDec_shape d
        rw [heq]
        intro hlast
        have h1 : (w ++ '.' :: f).getLast? = f.getLast? := by
          rw [show w ++ '.' :: f = (w ++ ['.']) ++ f by simp, List.getLast?_append]
          cases hlf : f.getLast? with
          | none => exact absurd (List.getLast?_eq_none_iff.mp hlf) hfne
          | some x => rfl
        rw [h1] at hlast
        have hmem : 'S' ∈ f := by
          have := List.mem_getLast?_eq_getLast (x := 'S') (l := f) hlast
          obtain ⟨hh, hx⟩ := this
          rw [hx]
          exact List.getLast_mem hh
        exact absurd (hf 'S' hmem) (by decide)

theorem mem_innerTokC {g : Geometry} {c : Char} (h : c ∈ innerTokC g) :
    c = '[' ∨ c = ']' ∨ c = ',' ∨ ∃ d ∈ g.inner, c ∈ printDec d := by
  rcases List.mem_cons.mp h with h1 | h1
  · exact Or.inl h1
  · rcases List.mem_append.mp h1 with h2 | h2
    · rcases mem_joinComma h2 with ⟨l, hl, hcl⟩ | h3
      · rcases List.mem_map.mp hl with ⟨d, hd, rfl⟩
        exact Or.inr (Or.inr (Or.inr ⟨d, hd, hcl⟩))
      · exact Or.inr (Or.inr (Or.inl h3))
    · rcases List.mem_cons.mp h2 with h3 | h3
      · exact Or.inr (Or.inl h3)
      · simp at h3

theorem mem_middleTokC {g : Geometry} {c : Char} (h : c ∈ middleTokC g) :
    c ∈ printDec g.middle ∨ c = 'S' := by
  rcases List.mem_append.mp h with h1 | h1
  · exact Or.inl h1
  · split at h1
    · rcases List.mem_cons.mp h1 with h2 | h2
      · exact Or.inr h2
      · simp at h2
    · simp at h1

theorem canonical_no_space (g : Geometry) : ∀ c ∈ canonical g, ¬ (c = ' ') := by
  intro c hc
  unfold canonical at hc
  rcases List.mem_append.mp hc with h | h
  · exact fun he => absurd he (printDec_no_sep g.outer c h).2.2.2.2.2
  · rcases List.mem_cons.mp h with h1 | h1
    · subst h1; decide
    · rcases List.mem_append.mp h1 with h2 | h2
      · rcases mem_innerTokC h2 with h3 | h3 | h3 | ⟨d, -, h3⟩
        · subst h3; decide
        · subst h3; decide
        · subst h3; decide
        · exact fun he => absurd he (printDec_no_sep d c h3).2.2.2.2.2
      · rcases List.mem_cons.mp h2 with h3 | h3
        · subst h3; decide
        · rcases mem_middleTokC h3 with h4 | h4
          · exact fun he => absurd he (printDec_no_sep g.middle c h4).2.2.2.2.2
          · subst h4; decide

theorem canonical_split (g : Geometry) :
    splitOnC '-' ((canonical g).filter (fun c => ¬ (c = ' '))) =
      [printDec g.outer, innerTokC g, middleTokC g] := by
  rw [List.filter_eq_self.mpr (by
    intro a ha
    simpa using canonical_no_space g a ha)]
  show splitOnC '-' (printDec g.outer ++ '-' :: (innerTokC g ++ '-' :: middleTokC g)) = _
  rw [splitOnC_append (fun c hc => (printDec_no_sep g.outer c hc).1)]
  rw [splitOnC_append (by
    intro c hc
    rcases mem_innerTokC hc with h | h | h | ⟨d, -, h⟩
    · subst h; decide
    · subst h; decide
    · subst h; decide
    · exact (printDec_no_sep d c h).1)]
  rw [splitOnC_nosep (by
    intro c hc
    rcases mem_middleTokC hc with h | h
    · exact (printDec_no_sep g.middle c h).1
    · subst h; decide)]

/-- Reparsing the canonical form recovers the geometry up to numeral
stabilisation. -/
theorem parse_canonical {g : Geometry} (hne : g.inner ≠ []) :
    parseGeometry (canonical g) = .ok (stabilizeG g) := by
  rw [parseGeometry_parts (canonical_split g), parseDec_printDec]
  show (match some g.outer.stabilize, parseInnerTok (innerTokC g),
      parseMiddleTok (middleTokC g) with
    | some ov, some iv, some (mv, sym) =>
        Except.ok (Geometry.mk ov iv mv sym)
    | _, _, _ => Except.error GeometryParseError.badToken) = _
  rw [show innerTokC g = '[' :: (joinComma (g.inner.map printDec) ++ [']']) from rfl,
    parseInnerTok_printed g.inner hne,
    show middleTokC g = printDec g.middle ++ (if g.symmetric then ['S'] else []) from rfl,
    parseMiddleTok_printed g.middle g.symmetric]
  rfl

theorem canonical_stabilizeG (g : Geometry) : canonical (stabilizeG g) = canonical g := by
  unfold canonical innerTokC middleTokC stabilizeG
  simp only [List.map_map]
  rw [printDec_stabilize, printDec_stabilize]
  have : g.inner.map (printDec ∘ Dec.stabilize) = g.inner.map printDec :=
    List.map_congr_left (fun d _ => printDec_stabilize d)
  rw [this]

theorem parse_ok_inner_ne_nil {s : List Char} {g : Geometry}
    (h : parseGeometry s = .ok g) : g.inner ≠ [] := by
  unfold parseGeometry at h
  split at h
  · rename_i o i m heq
    cases ho : parseDec o with
    | none => rw [ho] at h; simp at h
    | some ov =>
        cases hi : parseInnerTok i with
        | none => rw [ho, hi] at h; simp at h
        | some iv =>
            cases hm : parseMiddleTok m with
            | none => rw [ho, hi, hm] at h; simp at h
            | some mv =>
                rw [ho, hi, hm] at h
                cases mv with
                | mk mvd sym =>
                    simp only [Except.ok.injEq] at h
                    have hgi : g.inner = iv := by rw [← h]
                    rw [hgi]
                    unfold parseInnerTok at hi
                    split at hi
                    · split at hi
                      · exact mapM_parseDec_ne_nil (splitOnC_ne_nil _ _) hi
                      · simp at hi
                    · cases hd : parseDec i with
                      | none => rw [hd] at hi; simp at hi
                      | some dv =>
                          rw [hd] at hi
                          simp only [Option.map_some', Option.some.injEq] at hi
                          rw [← hi]
                          simp
  · simp at h

/-! ### StackBuilder: ordered layers, materials, ply count -/

/-- Layer types of the General Convention. -/
inductive Ltype
  | outer
  | inner
  | middle
deriving DecidableEq, Repr

/-- Expected stress state of a row (`side_`): tensile below the neutral
axis, compressive above, `none` on the neutral axis; `INDET` marks the
physically ambiguous single-point middle rows (docs, "More on
IndeterminateError"). -/
inductive Side
  | tensile
  | compressive
  | none
  | indet
deriving DecidableEq, Repr

/-- Error taxonomy of spec section 7. -/
inductive LamanaError
  | geometryParse (e : GeometryParseError)
  | validation
  | indeterminate
  | model
deriving DecidableEq, Repr

/-- Internally, middle layers return the full thickness, not the symmetric
half (LPEP 001 micro-PEP 8): an `S`-marked middle token denotes the half
thickness of the mirrored middle layer. -/
def middleFull (g : Geometry) : ℚ :=
  if g.symmetric then 2 * g.middle.toQ else g.middle.toQ

/-- Modelled from the spec: `StackBuilder` orders layers
outer, inner..., middle, inner... (mirrored), outer, bottom (tensile) to
top (compressive), skipping zero-thickness placeholder layers
(spec section 4.2; docs `Stack` example for `400-200-800`). -/
def orderedLayers (g : Geometry) : List (ℚ × Ltype) :=
  (if g.outer.isPos then [(g.outer.toQ, Ltype.outer)] else []) ++
    ((g.inner.filter Dec.isPos).map (fun d => (d.toQ, Ltype.inner))) ++
    (if g.middle.isPos then [(middleFull g, Ltype.middle)] else []) ++
    ((g.inner.filter Dec.isPos).map (fun d => (d.toQ, Ltype.inner))).reverse ++
    (if g.outer.isPos then [(g.outer.toQ, Ltype.outer)] else [])

/-- Number of plies: the number of (positive-thickness) layers in the
ordered stack. -/
def nplies (g : Geometry) : ℕ := (orderedLayers g).length

/-- Loading/sampling parameters of `FeatureInput.Parameters`
(spec section 6: `R, a, p, P_a, r`). -/
structure Loading where
  R : ℚ
  a : ℚ
  P : ℚ
  r : ℚ
  p : ℕ
deriving DecidableEq, Repr

/-- Material properties in Standard Form (LPEP 001 micro-PEP 7). -/
structure MatProps where
  modulus : List (String × ℚ)
  poissons : List (String × ℚ)
deriving DecidableEq, Repr

/-- Cyclic material assignment: layer `i` (0-based) takes the `i mod len`-th
entry of the material ordering; a short list is cycled, not filtered
(spec section 4.2). -/
def matlAt (mats : List String) (i : ℕ) : String := mats.getD (i % mats.length) ""

/-- A row of the `Snapshot` table: one row per layer with identification
columns `layer_, matl_, type_, t_` (spec section 3). -/
structure SnapRow where
  layer : ℕ
  matl : String
  ltype : Ltype
  t : ℚ
deriving DecidableEq, Repr

/-- Modelled from the spec: `Snapshot`, the primitive one-row-per-layer
table derived from the ordered stack and the material ordering. -/
def snapshot (g : Geometry) (mats : List String) : List SnapRow :=
  (orderedLayers g).enum.map (fun e => ⟨e.1 + 1, matlAt mats e.1, e.2.2, e.2.1⟩)

/-- Modelled from the spec: `StackBuilder.build` raises
`IndeterminateError` for the ambiguous single-layer single-point
configuration `nplies=1, p=1` instead of silently defaulting
(spec section 4.2, Scenario C; docs "More on IndeterminateError"). -/
def buildStack (g : Geometry) (lp : Loading) (mats : List String) :
    Except LamanaError (List SnapRow) :=
  if nplies g = 1 ∧ lp.p = 1 then .error .indeterminate
  else .ok (snapshot g mats)

/-! ### DimensionalCalculator: the per-point LFrame -/

/-- Point classifications (`label_`), docs "More on label_". -/
inductive Label
  | interfacial
  | internal
  | discontinuity
  | neutralaxis
deriving DecidableEq, Repr

/-- Modelled from the spec: point classification depends only on the point
index within the layer, `p`, and the layer position (docs: middle layers
have two interfacial points, no discontinuities, and the neutral-axis row
for odd plies and odd `p`; every other layer has one interfacial point,
with one discontinuity point at the interface shared with the adjacent
layer when `p >= 2`; remaining points are internal).  On the tensile side
the interfacial point is the layer maximum, farthest from the neutral
axis (LPEP 001 micro-PEP 10). -/
def labelOf (n p ℓ i : ℕ) : Label :=
  if n % 2 = 1 ∧ ℓ = n / 2 then
    if p % 2 = 1 ∧ i = p / 2 then .neutralaxis
    else if i = 0 ∨ i = p - 1 then .interfacial
    else .internal
  else if ℓ < n / 2 then
    if i = 0 then .interfacial
    else if i = p - 1 then .discontinuity
    else .internal
  else
    if i = p - 1 then .interfacial
    else if i = 0 then .discontinuity
    else .internal

/-- Modelled from the spec: `side_` is assigned from the row position in
the table, which accounts for even and odd row counts; the middle row of
an odd-row table is the neutral axis, assigned `none` — or `INDET` when
`p = 1`, where the single middle-layer point's location is ambiguous
(docs "More on `Laminate`", "More on IndeterminateError"). -/
def sideOf (p N j : ℕ) : Side :=
  if N % 2 = 1 ∧ j = N / 2 then (if p = 1 then .indet else Side.none)
  else if j < N / 2 then .tensile
  else .compressive

/-- Layer thicknesses, bottom to top. -/
def tsOf (g : Geometry) : List ℚ := (orderedLayers g).map Prod.fst

/-- Cumulative thickness below layer `ℓ` (0-based). -/
def baseOf (g : Geometry) (ℓ : ℕ) : ℚ := ((tsOf g).take ℓ).sum

/-- Thickness of layer `ℓ`. -/
def tAt (g : Geometry) (ℓ : ℕ) : ℚ := (tsOf g).getD ℓ 0

/-- Type of layer `ℓ`. -/
def typeAt (g : Geometry) (ℓ : ℕ) : Ltype :=
  (((orderedLayers g).map Prod.snd).getD ℓ .outer)

/-- Total laminate thickness. -/
def Htot (g : Geometry) : ℚ := (tsOf g).sum

/-- Fractional position (`k_`) of point `i` inside its layer: `p` ordered
points span the layer; for `p = 1` the single point sits at the layer
centroid, reflecting the ambiguity the docs describe for one-point layers. -/
def frac (p i : ℕ) : ℚ := if p ≤ 1 then 1 / 2 else (i : ℚ) / ((p : ℚ) - 1)

/-- Absolute height (`d_`) of point `i` of layer `ℓ` above the tensile
surface. -/
def dOf (g : Geometry) (p ℓ i : ℕ) : ℚ := baseOf g ℓ + tAt g ℓ * frac p i

/-- A row of the `LFrame`: identification plus dimensional columns
(spec section 3).  `h_` uses the half thickness for middle layers
(mirrored about the neutral axis, LPEP 001 micro-PEP 9); `z_` is the
distance of the point from the neutral axis. -/
structure Row where
  layer : ℕ
  side : Side
  matl : String
  ltype : Ltype
  t : ℚ
  label : Label
  k : ℚ
  d : ℚ
  h : ℚ
  z : ℚ
deriving DecidableEq, Repr

/-- The row for point `i` of layer `ℓ`. -/
def rowAt (g : Geometry) (mats : List String) (p ℓ i : ℕ) : Row :=
  { layer := ℓ + 1
    side := sideOf p (nplies g * p) (ℓ * p + i)
    matl := matlAt mats ℓ
    ltype := typeAt g ℓ
    t := tAt g ℓ
    label := labelOf (nplies g) p ℓ i
    k := frac p i
    d := dOf g p ℓ i
    h := if typeAt g ℓ = Ltype.middle then tAt g ℓ / 2 else tAt g ℓ
    z := |dOf g p ℓ i - Htot g / 2| }

/-- Modelled from the spec: the `LFrame` expansion generates exactly `p`
ordered points for each layer, layers bottom to top, points by ascending
`k_` (spec sections 4.3 and 5). -/
def lframeRows (g : Geometry) (mats : List String) (p : ℕ) : List Row :=
  (List.range (nplies g)).flatMap
    (fun ℓ => (List.range p).map (fun i => rowAt g mats p ℓ i))

/-- Modelled from the spec: `build_LFrame` — build the stack (surfacing
`IndeterminateError` for the ambiguous monolith), then expand per-point
rows. -/
def buildLFrame (g : Geometry) (lp : Loading) (mats : List String) :
    Except LamanaError (List Row) :=
  (buildStack g lp mats).map (fun _ => lframeRows g mats lp.p)

/-! ### ModelHandshake: pluggable theory models and fault isolation -/

/-- Exceptions a model implementation can raise: numeric, validation, or
an author-raised domain error such as `IndeterminateError`
(spec section 4.4; `Wilson_LT` source in `writecustom.ipynb`). -/
inductive PyExc
  | zeroDivision
  | valueError
  | indeterminate
  | custom
deriving DecidableEq, Repr

/-- The model-computed global constants stored into
`FeatureInput.Globals`.  The transcendental moment terms (`M_r`, `M_t`,
`K_r`, `K_t`) of `Wilson_LT` involve `log(a/r)` and are out of the core's
scope (spec section 1 excludes the concrete physics formulas); the
rational constants are kept. -/
structure Globals where
  vEq : ℚ
  D11T : ℚ
  D12T : ℚ
  D11p : ℚ
  D12n : ℚ
deriving DecidableEq, Repr

/-- Modelled from the spec: the `FeatureInput` configuration bundle
(spec sections 3 and 6).  `globals` is unset until a successful
handshake populates it. -/
structure FeatureInput where
  geometry : Geometry
  parameters : Loading
  properties : MatProps
  model : String
  globals : Option Globals
deriving DecidableEq, Repr

/-- Model-computed per-row columns (`Q11, Q12, D11, D12` of `Wilson_LT`). -/
structure ModelRow where
  Q11 : ℚ
  Q12 : ℚ
  D11 : ℚ
  D12 : ℚ
deriving DecidableEq, Repr

/-- Modelled from the spec: the plug-in contract — one operation taking
the `LFrame` (plus the bundle and the alternate-z flag) and returning the
updated table together with populated globals, or raising
(spec sections 4.4 and 6). -/
def ModelImpl : Type :=
  List Row → FeatureInput → Bool → Except PyExc (List ModelRow × Globals)

/-- The bundled `Wilson_LT` model, from the source embedded in
`writecustom.ipynb`: the dev-defined exception checks in source order
(`r=0`, `a=0`, negative `r` or `a`, support radius exceeding the specimen
radius, an `INDET` value in the side column), then stiffness and bending
columns and the rational global constants. -/
def wilsonLT : ModelImpl := fun lf fi _adjusted =>
  if fi.parameters.r = 0 then .error .zeroDivision
  else if fi.parameters.a = 0 then .error .zeroDivision
  else if fi.parameters.r < 0 ∨ fi.parameters.a < 0 then .error .valueError
  else if fi.parameters.R < fi.parameters.a then .error .valueError
  else if lf.any (fun r => r.side == Side.indet) then .error .indeterminate
  else
    let rows := lf.map (fun r =>
      let E := (fi.properties.modulus.lookup r.matl).getD 0
      let nu := (fi.properties.poissons.lookup r.matl).getD 0
      let q11 := E / (1 - nu ^ 2)
      let q12 := nu * E / (1 - nu ^ 2)
      { Q11 := q11, Q12 := q12,
        D11 := q11 * (r.h ^ 3 / 12 + r.h * r.z ^ 2),
        D12 := q12 * (r.h ^ 3 / 12 + r.h * r.z ^ 2) : ModelRow })
    let pairs := lf.zip rows
    let D11T :=
      if fi.parameters.p = 1 ∧ nplies fi.geometry % 2 = 0 then (rows.map ModelRow.D11).sum
      else ((pairs.filter (fun pr => pr.1.label == Label.interfacial)).map
        (fun pr => pr.2.D11)).sum
    let D12T :=
      if fi.parameters.p = 1 ∧ nplies fi.geometry % 2 = 0 then (rows.map ModelRow.D12).sum
      else ((pairs.filter (fun pr => pr.1.label == Label.interfacial)).map
        (fun pr => pr.2.D12)).sum
    if D11T = 0 ∨ D11T ^ 2 - D12T ^ 2 = 0 then .error .zeroDivision
    else .ok (rows,
      { vEq := D12T / D11T, D11T := D11T, D12T := D12T,
        D11p := 1 / (D11T ^ 2 - D12T ^ 2) * D11T,
        D12n := -(1 / (D11T ^ 2 - D12T ^ 2) * D12T) })

/-- The `LaminateModel` table: the LFrame plus model columns, or the
LFrame unchanged with no model columns after a rollback
(spec section 3). -/
structure LMFrame where
  lframe : List Row
  modelCols : Option (List ModelRow)
deriving DecidableEq, Repr

/-- Modelled from the spec: model resolution as a registry lookup keyed by
the model identifier (spec section 9). -/
def modelRegistry : List (String × ModelImpl) := [("Wilson_LT", wilsonLT)]

def resolveModel (mid : String) : Option ModelImpl := modelRegistry.lookup mid

/-- Modelled from the spec: the handshake isolation boundary — any error
raised by the model is caught, and rollback returns the untouched LFrame
with `Globals` untouched; success merges the table and populates
`Globals` (spec section 4.4). -/
def handshake (m : ModelImpl) (lf : List Row) (fi : FeatureInput) :
    LMFrame × FeatureInput :=
  match m lf fi false with
  | .ok (cols, g) => (⟨lf, some cols⟩, { fi with globals := some g })
  | .error _ => (⟨lf, Option.none⟩, fi)

/-- Modelled from the spec:
`apply_model(lframe, feature_input, model_id)` (spec section 4.4). -/
def apply_model (lf : List Row) (fi : FeatureInput) (mid : String) :
    LMFrame × FeatureInput :=
  match resolveModel mid with
  | some m => handshake m lf fi
  | Option.none => (⟨lf, Option.none⟩, fi)

/-! ### Indexing and counting lemmas for the LFrame -/

theorem flatMap_blocks {α : Type} (n p : ℕ) (f : ℕ → ℕ → α) :
    (List.range n).flatMap (fun ℓ => (List.range p).map (f ℓ)) =
      (List.range (n * p)).map (fun j => f (j / p) (j % p)) := by
  induction n with
  | zero => simp
  | succ q ih =>
      rw [List.range_succ, List.flatMap_append, ih]
      have hq : (q + 1) * p = q * p + p := by ring
      rw [hq, List.range_add, List.map_append, List.map_map]
      congr 1
      · simp only [List.flatMap_cons, List.flatMap_nil, List.append_nil]
        apply List.map_congr_left
        intro i hi
        have hip : i < p := List.mem_range.mp hi
        have hp : 0 < p := by omega
        have hdiv : (q * p + i) / p = q := by
          rw [Nat.mul_comm q p, Nat.mul_add_div hp, Nat.div_eq_of_lt hip, Nat.add_zero]
        have hmod : (q * p + i) % p = i := by
          rw [Nat.mul_comm q p, Nat.mul_add_mod, Nat.mod_eq_of_lt hip]
        show f q i = f ((q * p + i) / p) ((q * p + i) % p)
        rw [hdiv, hmod]

theorem lframeRows_eq_map (g : Geometry) (mats : List String) (p : ℕ) :
    lframeRows g mats p =
      (List.range (nplies g * p)).map (fun j => rowAt g mats p (j / p) (j % p)) := by
  unfold lframeRows
  exact flatMap_blocks (nplies g) p (fun ℓ i => rowAt g mats p ℓ i)

theorem lframeRows_length (g : Geometry) (mats : List String) (p : ℕ) :
    (lframeRows g mats p).length = nplies g * p := by
  rw [lframeRows_eq_map]
  simp

theorem lframeRows_getElem (g : Geometry) (mats : List String) (p j : ℕ)
    (h : j < (lframeRows g mats p).length) :
    (lframeRows g mats p)[j] = rowAt g mats p (j / p) (j % p) := by
  have h' := h
  rw [lframeRows_length] at h'
  simp only [lframeRows_eq_map]
  rw [List.getElem_map]
  congr 1 <;> rw [List.getElem_range]

theorem countP_range_zero {p : ℕ} {P : ℕ → Bool} (h : ∀ i < p, ¬ P i = true) :
    (List.range p).countP P = 0 :=
  List.countP_eq_zero.mpr (fun i hi => h i (List.mem_range.mp hi))

theorem countP_range_one {a p : ℕ} {P : ℕ → Bool} (ha : a < p)
    (hP : ∀ i < p, (P i = true ↔ i = a)) :
    (List.range p).countP P = 1 := by
  induction p with
  | zero => omega
  | succ q ih =>
      rw [List.range_succ, List.countP_append]
      by_cases haq : a = q
      · subst haq
        rw [countP_range_zero (fun i hi hP' => by
          have := (hP i (Nat.lt_succ_of_lt hi)).mp hP'
          omega)]
        have hq : P a = true := (hP a (Nat.lt_succ_self a)).mpr rfl
        simp [List.countP_cons, hq]
      · have ha' : a < q := by omega
        rw [ih ha' (fun i hi => hP i (Nat.lt_succ_of_lt hi))]
        have hq : ¬ P q = true := fun hP' =>
          absurd ((hP q (Nat.lt_succ_self q)).mp hP').symm haq
        simp [List.countP_cons, hq]

theorem countP_range_two {a b p : ℕ} {P : ℕ → Bool} (hab : a ≠ b) (ha : a < p) (hb : b < p)
    (hP : ∀ i < p, (P i = true ↔ (i = a ∨ i = b))) :
    (List.range p).countP P = 2 := by
  induction p with
  | zero => omega
  | succ q ih =>
      rw [List.range_succ, List.countP_append]
      by_cases haq : a = q
      · have hb' : b < q := by omega
        rw [countP_range_one hb' (fun i hi => by
          constructor
          · intro hP'
            rcases (hP i (Nat.lt_succ_of_lt hi)).mp hP' with h | h
            · omega
            · exact h
          · intro h
            exact (hP i (Nat.lt_succ_of_lt hi)).mpr (Or.inr h))]
        have hq : P q = true := (hP q (Nat.lt_succ_self q)).mpr (Or.inl haq.symm)
        simp [List.countP_cons, hq]
      · by_cases hbq : b = q
        · have ha' : a < q := by omega
          rw [countP_range_one ha' (fun i hi => by
            constructor
            · intro hP'
              rcases (hP i (Nat.lt_succ_of_lt hi)).mp hP' with h | h
              · exact h
              · omega
            · intro h
              exact (hP i (Nat.lt_succ_of_lt hi)).mpr (Or.inl h))]
          have hq : P q = true := (hP q (Nat.lt_succ_self q)).mpr (Or.inr hbq.symm)
          simp [List.countP_cons, hq]
        · have ha' : a < q := by omega
          have hb' : b < q := by omega
          rw [ih ha' hb' (fun i hi => hP i (Nat.lt_succ_of_lt hi))]
          have hq : ¬ P q = true := fun hP' => by
            rcases (hP q (Nat.lt_succ_self q)).mp hP' with h | h <;> omega
          simp [List.countP_cons, hq]

/-! ### Geometric height lemmas -/

theorem Dec.toQ_pos {d : Dec} (h : d.isPos = true) : 0 < d.toQ := by
  unfold Dec.toQ
  apply div_pos
  · have : d.num ≠ 0 := by simpa [Dec.isPos] using h
    exact_mod_cast Nat.pos_of_ne_zero this
  · positivity

theorem middleFull_pos {g : Geometry} (h : g.middle.isPos = true) : 0 < middleFull g := by
  unfold middleFull
  have := Dec.toQ_pos h
  split <;> linarith

theorem tsOf_pos (g : Geometry) : ∀ q ∈ tsOf g, 0 < q := by
  intro q hq
  unfold tsOf orderedLayers at hq
  simp only [List.mem_map, List.mem_append, List.mem_reverse] at hq
  obtain ⟨⟨t, ty⟩, hmem, rfl⟩ := hq
  rcases hmem with ((((h | h) | h) | h) | h)
  · split at h
    · simp at h
      exact h.1 ▸ Dec.toQ_pos (by assumption)
    · simp at h
  · obtain ⟨d, hd, he⟩ := h
    have : d.toQ = t := congrArg Prod.fst he
    rw [← this]
    exact Dec.toQ_pos (List.mem_filter.mp hd).2
  · split at h
    · simp at h
      exact h.1 ▸ middleFull_pos (by assumption)
    · simp at h
  · obtain ⟨d, hd, he⟩ := h
    have : d.toQ = t := congrArg Prod.fst he
    rw [← this]
    exact Dec.toQ_pos (List.mem_filter.mp hd).2
  · split at h
    · simp at h
      exact h.1 ▸ Dec.toQ_pos (by assumption)
    · simp at h

theorem tAt_nonneg (g : Geometry) (ℓ : ℕ) : 0 ≤ tAt g ℓ := by
  unfold tAt
  by_cases h : ℓ < (tsOf g).length
  · rw [List.getD_eq_getElem _ _ h]
    exact le_of_lt (tsOf_pos g _ (List.getElem_mem h))
  · rw [List.getD_eq_default _ _ (by omega)]

/-- The mirrored stack is palindromic in thickness. -/
theorem tsOf_reverse (g : Geometry) : (tsOf g).reverse = tsOf g := by
  unfold tsOf orderedLayers
  simp only [List.map_append, List.map_reverse, List.reverse_append,
    List.reverse_reverse]
  by_cases ho : g.outer.isPos <;> by_cases hm : g.middle.isPos <;>
    simp [ho, hm, List.append_assoc]

theorem baseOf_succ (g : Geometry) (ℓ : ℕ) (h : ℓ < nplies g) :
    baseOf g (ℓ + 1) = baseOf g ℓ + tAt g ℓ := by
  unfold baseOf tAt
  have hlen : ℓ < (tsOf g).length := by
    unfold tsOf
    simpa [nplies] using h
  rw [List.sum_take_succ _ _ hlen, List.getD_eq_getElem _ _ hlen]

theorem baseOf_ge (g : Geometry) (ℓ : ℕ) (h : nplies g ≤ ℓ) : baseOf g ℓ = Htot g := by
  unfold baseOf Htot
  rw [List.take_of_length_le]
  unfold tsOf
  simpa [nplies] using h

theorem tAt_ge (g : Geometry) (ℓ : ℕ) (h : nplies g ≤ ℓ) : tAt g ℓ = 0 := by
  unfold tAt
  rw [List.getD_eq_default]
  unfold tsOf
  simpa [nplies] using h

theorem baseOf_add_tAt_le (g : Geometry) (ℓ : ℕ) :
    baseOf g ℓ + tAt g ℓ ≤ Htot g := by
  by_cases h : ℓ < nplies g
  · rw [← baseOf_succ g ℓ h]
    unfold baseOf Htot
    rw [← List.sum_take_add_sum_drop (tsOf g) (ℓ + 1)]
    have : 0 ≤ ((tsOf g).drop (ℓ + 1)).sum :=
      List.sum_nonneg (fun q hq => le_of_lt (tsOf_pos g q (List.mem_of_mem_drop hq)))
    linarith
  · rw [baseOf_ge g ℓ (by omega), tAt_ge g ℓ (by omega)]
    linarith

theorem getD_reverse_of_lt {α : Type} (l : List α) (d : α) (i : ℕ) (h : i < l.length) :
    l.reverse.getD i d = l.getD (l.length - 1 - i) d := by
  have h1 : i < l.reverse.length := by simpa using h
  rw [List.getD_eq_getElem _ _ h1, List.getD_eq_getElem _ _ (by omega)]
  exact List.getElem_reverse h1

theorem tAt_rev (g : Geometry) (ℓ : ℕ) (h : ℓ < nplies g) :
    tAt g (nplies g - 1 - ℓ) = tAt g ℓ := by
  have hlen : (tsOf g).length = nplies g := by simp [tsOf, nplies]
  have h2 : ℓ < (tsOf g).length := by omega
  have hidx : nplies g - 1 - ℓ = (tsOf g).length - 1 - ℓ := by omega
  unfold tAt
  rw [hidx, ← getD_reverse_of_lt (tsOf g) 0 ℓ h2, tsOf_reverse]

theorem baseOf_rev (g : Geometry) (ℓ : ℕ) (h : ℓ < nplies g) :
    baseOf g (nplies g - 1 - ℓ) = Htot g - baseOf g ℓ - tAt g ℓ := by
  have hlen : (tsOf g).length = nplies g := by simp [tsOf, nplies]
  have htake : (tsOf g).take (nplies g - 1 - ℓ) =
      ((tsOf g).drop (ℓ + 1)).reverse := by
    conv_lhs => rw [← tsOf_reverse g]
    rw [List.take_reverse]
    congr 2
    omega
  have h1 : baseOf g (nplies g - 1 - ℓ) = ((tsOf g).drop (ℓ + 1)).sum := by
    unfold baseOf
    rw [htake, List.sum_reverse]
  have hs : ((tsOf g).take (ℓ + 1)).sum = baseOf g ℓ + tAt g ℓ := by
    unfold baseOf tAt
    rw [List.sum_take_succ _ _ (by omega), List.getD_eq_getElem _ _ (by omega)]
  have hH : ((tsOf g).take (ℓ + 1)).sum + ((tsOf g).drop (ℓ + 1)).sum = Htot g :=
    List.sum_take_add_sum_drop (tsOf g) (ℓ + 1)
  rw [h1]
  linarith

/-! ### Fraction lemmas -/

theorem frac_nonneg (p i : ℕ) : 0 ≤ frac p i := by
  unfold frac
  split
  · norm_num
  · apply div_nonneg
    · positivity
    · rename_i h
      have : (2 : ℚ) ≤ (p : ℚ) := by exact_mod_cast (by omega : 2 ≤ p)
      linarith

theorem frac_le_one (p i : ℕ) (h : i < p) : frac p i ≤ 1 := by
  unfold frac
  split
  · norm_num
  · rename_i hp
    have hp2 : 2 ≤ p := by omega
    have hpq : (2 : ℚ) ≤ (p : ℚ) := by exact_mod_cast hp2
    rw [div_le_one (by linarith)]
    have : (i : ℚ) ≤ (p : ℚ) - 1 := by
      have : i ≤ p - 1 := by omega
      have h2 : ((p - 1 : ℕ) : ℚ) = (p : ℚ) - 1 := by
        push_cast [Nat.cast_sub (by omega : 1 ≤ p)]
        ring
      calc (i : ℚ) ≤ ((p - 1 : ℕ) : ℚ) := by exact_mod_cast this
        _ = (p : ℚ) - 1 := h2
    linarith

theorem frac_mono (p i : ℕ) : frac p i ≤ frac p (i + 1) := by
  unfold frac
  split
  · linarith
  · rename_i hp
    have hp2 : 2 ≤ p := by omega
    have hpq : (2 : ℚ) ≤ (p : ℚ) := by exact_mod_cast hp2
    apply div_le_div_of_nonneg_right ?_ (by linarith)
    push_cast
    linarith

theorem frac_last (p : ℕ) (hp : 2 ≤ p) : frac p (p - 1) = 1 := by
  unfold frac
  rw [if_neg (by omega)]
  have hpq : (2 : ℚ) ≤ (p : ℚ) := by exact_mod_cast hp
  rw [div_eq_one_iff_eq (by linarith)]
  push_cast [Nat.cast_sub (by omega : 1 ≤ p)]
  ring

theorem frac_rev (p i : ℕ) (h : i < p) : frac p (p - 1 - i) = 1 - frac p i := by
  unfold frac
  split
  · norm_num
  · rename_i hp
    have hp2 : 2 ≤ p := by omega
    have hpq : (2 : ℚ) ≤ (p : ℚ) := by exact_mod_cast hp2
    have hcast : ((p - 1 - i : ℕ) : ℚ) = (p : ℚ) - 1 - (i : ℚ) := by
      have he : p - 1 - i = p - (1 + i) := by omega
      rw [he, Nat.cast_sub (by omega : 1 + i ≤ p)]
      push_cast
      ring
    rw [hcast]
    have hne : (p : ℚ) - 1 ≠ 0 := by linarith
    rw [eq_sub_iff_add_eq, div_add_div_same, div_eq_one_iff_eq hne]
    ring

/-! ### Row heights: monotone bottom-to-top and mirror-symmetric -/

/-- Height of the `j`-th row of the table (row `j` is point `j mod p` of
layer `j / p`). -/
def dRow (g : Geometry) (p j : ℕ) : ℚ := dOf g p (j / p) (j % p)

theorem dRow_mono (g : Geometry) (p : ℕ) : Monotone (dRow g p) := by
  apply monotone_nat_of_le_succ
  intro j
  by_cases hp : p = 0
  · subst hp
    unfold dRow dOf
    simp [Nat.div_zero, Nat.mod_zero, frac]
  · have hp' : 0 < p := Nat.pos_of_ne_zero hp
    obtain ⟨q, r, hr, rfl⟩ : ∃ q r, r < p ∧ j = p * q + r :=
      ⟨j / p, j % p, Nat.mod_lt _ hp', (Nat.div_add_mod j p).symm⟩
    have hq : (p * q + r) / p = q := by
      rw [Nat.mul_add_div hp', Nat.div_eq_of_lt hr, Nat.add_zero]
    have hqm : (p * q + r) % p = r := by
      rw [Nat.mul_add_mod, Nat.mod_eq_of_lt hr]
    by_cases hlt : r + 1 < p
    · have hdiv : (p * q + r + 1) / p = q := by
        rw [show p * q + r + 1 = p * q + (r + 1) by ring,
          Nat.mul_add_div hp', Nat.div_eq_of_lt hlt, Nat.add_zero]
      have hmod : (p * q + r + 1) % p = r + 1 := by
        rw [show p * q + r + 1 = p * q + (r + 1) by ring,
          Nat.mul_add_mod, Nat.mod_eq_of_lt hlt]
      unfold dRow dOf
      rw [hdiv, hmod, hq, hqm]
      have h1 := frac_mono p r
      have h2 := tAt_nonneg g q
      nlinarith
    · have heq : r + 1 = p := by omega
      have hstep : p * q + r + 1 = p * (q + 1) := by
        rw [show p * (q + 1) = p * q + p by ring]
        omega
      have hdiv : (p * q + r + 1) / p = q + 1 := by
        rw [hstep, Nat.mul_div_cancel_left _ hp']
      have hmod : (p * q + r + 1) % p = 0 := by
        rw [hstep]
        exact Nat.mul_mod_right p _
      unfold dRow dOf
      rw [hdiv, hmod, hq, hqm]
      have h1 : tAt g q * frac p r ≤ tAt g q :=
        mul_le_of_le_one_right (tAt_nonneg g _) (frac_le_one p _ hr)
      by_cases hℓ : q < nplies g
      · have h2 := baseOf_succ g q hℓ
        have h3 : 0 ≤ tAt g (q + 1) * frac p 0 :=
          mul_nonneg (tAt_nonneg g _) (frac_nonneg p 0)
        linarith
      · have h2 : baseOf g q = Htot g := baseOf_ge g _ (by omega)
        have h3 : baseOf g (q + 1) = Htot g := baseOf_ge g _ (by omega)
        have h4 : tAt g q = 0 := tAt_ge g _ (by omega)
        have h5 : tAt g (q + 1) = 0 := tAt_ge g _ (by omega)
        rw [h2, h3, h4, h5]
        simp

theorem dRow_rev (g : Geometry) (p j : ℕ) (hj : j < nplies g * p) :
    dRow g p (nplies g * p - 1 - j) = Htot g - dRow g p j := by
  have hp' : 0 < p := by
    rcases Nat.eq_zero_or_pos p with h | h
    · subst h; simp at hj
    · exact h
  have hi : j % p < p := Nat.mod_lt _ hp'
  have hjeq : p * (j / p) + j % p = j := Nat.div_add_mod j p
  have hℓ : j / p < nplies g := Nat.div_lt_of_lt_mul (by rw [Nat.mul_comm]; exact hj)
  set n := nplies g with hn
  set ℓ := j / p with hℓdef
  set i := j % p with hidef
  have hidx : n * p - 1 - j = p * (n - 1 - ℓ) + (p - 1 - i) := by
    have ha : n - 1 - ℓ = n - 1 - ℓ := rfl
    have hnp : n * p = p * (n - 1 - ℓ) + p * ℓ + p := by
      have : n = (n - 1 - ℓ) + ℓ + 1 := by omega
      calc n * p = ((n - 1 - ℓ) + ℓ + 1) * p := by rw [← this]
        _ = p * (n - 1 - ℓ) + p * ℓ + p := by ring
    have hj' : j = p * ℓ + i := hjeq.symm
    zify
    zify at hnp hj'
    omega
  have hdiv : (n * p - 1 - j) / p = n - 1 - ℓ := by
    rw [hidx, Nat.mul_add_div hp', Nat.div_eq_of_lt (by omega), Nat.add_zero]
  have hmod : (n * p - 1 - j) % p = p - 1 - i := by
    rw [hidx, Nat.mul_add_mod, Nat.mod_eq_of_lt (by omega)]
  unfold dRow dOf
  rw [hdiv, hmod, ← hℓdef, ← hidef]
  rw [baseOf_rev g ℓ hℓ, tAt_rev g ℓ hℓ, frac_rev p i hi]
  ring

/-! ### Side assignment characterised by position -/

theorem sideOf_of_lt_half {g : Geometry} {p j : ℕ} (hj : j < nplies g * p)
    (hd : dRow g p j < Htot g / 2) : sideOf p (nplies g * p) j = Side.tensile := by
  set N := nplies g * p with hN
  have hrev := dRow_rev g p j hj
  have hnotmid : ¬ (N % 2 = 1 ∧ j = N / 2) := by
    rintro ⟨hodd, hmid⟩
    have he : N - 1 - j = j := by omega
    rw [he] at hrev
    linarith
  have hlt : j < N / 2 := by
    by_contra hge
    have hle : N - 1 - j ≤ j := by omega
    have := dRow_mono g p hle
    rw [hrev] at this
    linarith
  unfold sideOf
  rw [if_neg hnotmid, if_pos hlt]

theorem sideOf_of_half_lt {g : Geometry} {p j : ℕ} (hj : j < nplies g * p)
    (hd : Htot g / 2 < dRow g p j) : sideOf p (nplies g * p) j = Side.compressive := by
  set N := nplies g * p with hN
  have hrev := dRow_rev g p j hj
  have hnotmid : ¬ (N % 2 = 1 ∧ j = N / 2) := by
    rintro ⟨hodd, hmid⟩
    have he : N - 1 - j = j := by omega
    rw [he] at hrev
    linarith
  have hge : ¬ j < N / 2 := by
    intro hlt
    have hle : j ≤ N - 1 - j := by omega
    have := dRow_mono g p hle
    rw [hrev] at this
    linarith
  unfold sideOf
  rw [if_neg hnotmid, if_neg hge]

theorem sideOf_middle {g : Geometry} {p j : ℕ} (hj : j < nplies g * p)
    (hodd : (nplies g * p) % 2 = 1) (hmid : j = nplies g * p / 2) :
    dRow g p j = Htot g / 2 ∧
      sideOf p (nplies g * p) j = (if p = 1 then Side.indet else Side.none) := by
  have hrev := dRow_rev g p j hj
  have he : nplies g * p - 1 - j = j := by omega
  rw [he] at hrev
  constructor
  · linarith
  · unfold sideOf
    rw [if_pos ⟨hodd, hmid⟩]

/-! ### Per-layer blocks of the LFrame -/

theorem flatMap_eq_single {α : Type} {n ℓ : ℕ} {F : ℕ → List α} (hℓ : ℓ < n)
    (h0 : ∀ ℓ' < n, ℓ' ≠ ℓ → F ℓ' = []) :
    (List.range n).flatMap F = F ℓ := by
  induction n with
  | zero => omega
  | succ q ih =>
      rw [List.range_succ, List.flatMap_append]
      by_cases hq : ℓ = q
      · subst hq
        rw [show (List.range ℓ).flatMap F = [] from ?_]
        · simp
        · rw [List.flatMap_eq_nil_iff]
          intro ℓ' hℓ'
          exact h0 ℓ' (by simp at hℓ'; omega) (by simp at hℓ'; omega)
      · rw [ih (by omega) (fun ℓ' h1 h2 => h0 ℓ' (by omega) h2)]
        rw [show [q].flatMap F = [] from ?_]
        · simp
        · simp [h0 q (Nat.lt_succ_self q) (fun he => hq he.symm)]

/-- The rows of layer `ℓ` (0-based) are exactly its `p` generated points. -/
theorem filter_layer (g : Geometry) (mats : List String) (p ℓ : ℕ)
    (hℓ : ℓ < nplies g) :
    (lframeRows g mats p).filter (fun r => r.layer == ℓ + 1) =
      (List.range p).map (fun i => rowAt g mats p ℓ i) := by
  unfold lframeRows
  rw [List.filter_flatMap]
  have hblock : ∀ ℓ', (List.filter (fun r => r.layer == ℓ + 1)
      ((List.range p).map (fun i => rowAt g mats p ℓ' i))) =
      if ℓ' = ℓ then (List.range p).map (fun i => rowAt g mats p ℓ i) else [] := by
    intro ℓ'
    by_cases he : ℓ' = ℓ
    · subst he
      rw [if_pos rfl]
      apply List.filter_eq_self.mpr
      intro r hr
      rcases List.mem_map.mp hr with ⟨i, -, rfl⟩
      simp [rowAt]
    · rw [if_neg he]
      apply List.filter_eq_nil_iff.mpr
      intro r hr
      rcases List.mem_map.mp hr with ⟨i, -, rfl⟩
      simp [rowAt]
      omega
  calc (List.range (nplies g)).flatMap
        (fun ℓ' => List.filter (fun r => r.layer == ℓ + 1)
          ((List.range p).map (fun i => rowAt g mats p ℓ' i)))
      = (List.range (nplies g)).flatMap
        (fun ℓ' => if ℓ' = ℓ then (List.range p).map (fun i => rowAt g mats p ℓ i)
          else []) := by
        apply List.flatMap_congr
        intro ℓ' _
        exact hblock ℓ'
    _ = (List.range p).map (fun i => rowAt g mats p ℓ i) := by
        rw [flatMap_eq_single hℓ (fun ℓ' _ hne => if_neg hne)]
        rw [if_pos rfl]

/-! ### Ply-count formula and snapshot columns -/

theorem nplies_formula (g : Geometry) :
    nplies g = 2 * ((if g.outer.isPos then 1 else 0) + g.inner.countP Dec.isPos) +
      (if g.middle.isPos then 1 else 0) := by
  unfold nplies orderedLayers
  rw [List.countP_eq_length_filter]
  by_cases ho : g.outer.isPos <;> by_cases hm : g.middle.isPos <;>
    simp [ho, hm] <;> ring

theorem snapshot_length (g : Geometry) (mats : List String) :
    (snapshot g mats).length = nplies g := by
  simp [snapshot, nplies]

theorem snapshot_t_indep (g : Geometry) (mats mats' : List String) :
    (snapshot g mats).map SnapRow.t = (snapshot g mats').map SnapRow.t := by
  unfold snapshot
  rw [List.map_map, List.map_map]
  rfl

theorem snapshot_type_indep (g : Geometry) (mats mats' : List String) :
    (snapshot g mats).map SnapRow.ltype = (snapshot g mats').map SnapRow.ltype := by
  unfold snapshot
  rw [List.map_map, List.map_map]
  rfl

theorem snapshot_matl (g : Geometry) (mats : List String) (i : ℕ)
    (h : i < (snapshot g mats).length) :
    (snapshot g mats)[i].matl = mats.getD (i % mats.length) "" := by
  unfold snapshot
  have h' : i < (orderedLayers g).enum.length := by
    simpa [snapshot] using h
  rw [List.getElem_map, List.getElem_enum]
  rfl

/-! ### Label characterisations -/

theorem labelOf_neutral_iff (n p ℓ i : ℕ) :
    labelOf n p ℓ i = Label.neutralaxis ↔
      (n % 2 = 1 ∧ ℓ = n / 2 ∧ p % 2 = 1 ∧ i = p / 2) := by
  unfold labelOf
  split_ifs with h1 h2 h3 h4 h5 h6 <;> simp_all

/-- Bridge from row label predicates on a layer block to point
predicates. -/
theorem countP_block_label (g : Geometry) (mats : List String) (p ℓ : ℕ) (lab : Label) :
    (((List.range p).map (fun i => rowAt g mats p ℓ i)).countP
        (fun r => r.label == lab)) =
      (List.range p).countP (fun i => labelOf (nplies g) p ℓ i == lab) := by
  rw [List.countP_map]
  rfl

/-! ### Concrete fixtures used by the witnesses -/

/-- The Scenario A geometry `400-[200]-800`. -/
def gStd : Geometry := ⟨⟨400, 0⟩, [⟨200, 0⟩], ⟨800, 0⟩, false⟩

/-- The 3-ply geometry `600-0-800` (zero-thickness inner placeholder). -/
def gTri : Geometry := ⟨⟨600, 0⟩, [⟨0, 0⟩], ⟨800, 0⟩, false⟩

/-- The 1-ply monolith `0-0-2000`. -/
def gMono : Geometry := ⟨⟨0, 0⟩, [⟨0, 0⟩], ⟨2000, 0⟩, false⟩

/-- A loading configuration with a single point per layer. -/
def lp1 : Loading := ⟨1, 1, 1, 1, 1⟩

/-- A loading configuration with five points per layer. -/
def lp5 : Loading := ⟨1, 1, 1, 1, 5⟩

/-- The default alphabetical material ordering of the docs. -/
def matsHA : List String := ["HA", "PSu"]

/-- Material properties for the fixtures. -/
def propsHA : MatProps := ⟨[("HA", 5), ("PSu", 3)], [("HA", 1/4), ("PSu", 1/3)]⟩

/-- The five-point LFrame of the Scenario A geometry. -/
def rowsStd : List Row := lframeRows gStd matsHA 5

/-- The one-point LFrame of the 3-ply geometry (INDET middle row). -/
def rowsTri : List Row := lframeRows gTri matsHA 1

/-- A `FeatureInput` whose loading passes the `Wilson_LT` validation
checks. -/
def fiTri : FeatureInput := ⟨gTri, lp1, propsHA, "Wilson_LT", Option.none⟩

/-- A `FeatureInput` with `r = 0` (Scenario D: the model divides by the
loading parameter `r`). -/
def fiZeroR : FeatureInput := ⟨gStd, ⟨1, 1, 1, 0, 5⟩, propsHA, "Wilson_LT", Option.none⟩

/-! ### Handshake reduction lemmas -/

theorem handshake_error (m : ModelImpl) (lf : List Row) (fi : FeatureInput) (e : PyExc)
    (herr : m lf fi false = .error e) :
    handshake m lf fi = ({ lframe := lf, modelCols := Option.none }, fi) := by
  unfold handshake
  rw [herr]

theorem apply_model_resolved (lf : List Row) (fi : FeatureInput) (mid : String)
    (m : ModelImpl) (hres : resolveModel mid = some m) :
    apply_model lf fi mid = handshake m lf fi := by
  unfold apply_model
  rw [hres]

/-! ### Claims -/

/-- Claim C1: for every call to `apply_model` in which the resolved
model's entry point raises any exception (numeric, validation, or an
author-raised domain error), `apply_model` catches the exception, wraps it
as `ModelError`, returns an `LMFrame` structurally and value-equal to the
untouched input `LFrame` with no model columns, leaves
`FeatureInput.Globals` unset, and does not propagate the exception to the
caller. -/
theorem C1_apply_model_rollback (lf : List Row) (fi : FeatureInput) (mid : String)
    (m : ModelImpl) (e : PyExc) (hres : resolveModel mid = some m)
    (herr : m lf fi false = .error e) :
    apply_model lf fi mid = ({ lframe := lf, modelCols := Option.none }, fi) ∧
      (fi.globals = Option.none → (apply_model lf fi mid).2.globals = Option.none) := by
  rw [apply_model_resolved lf fi mid m hres, handshake_error m lf fi e herr]
  exact ⟨rfl, fun h => h⟩

/-- Witness for C1: the bundled `Wilson_LT` raises `ZeroDivisionError`
for `r = 0` (Scenario D) and `apply_model` rolls back. -/
theorem C1_witness :
    apply_model [] fiZeroR "Wilson_LT" =
      ({ lframe := [], modelCols := Option.none }, fiZeroR) ∧
      (fiZeroR.globals = Option.none →
        (apply_model [] fiZeroR "Wilson_LT").2.globals = Option.none) :=
  C1_apply_model_rollback [] fiZeroR "Wilson_LT" wilsonLT PyExc.zeroDivision
    (by rfl) (by decide)

/-- Claim C2: for every `Geometry` produced by `parse`, `nplies` equals
`2*((1 if outer>0 else 0) + count(inner>0)) + (1 if middle>0 else 0)`;
zero-thickness placeholders are accepted in the input but excluded from
the ply count: `0-0-2000` is 1-ply, `1000-0-0` is 2-ply, and
`400-[200]-800` is 5-ply. -/
theorem C2_nplies_parse (s : List Char) (g : Geometry)
    (h : parseGeometry s = .ok g) :
    nplies g = 2 * ((if g.outer.isPos then 1 else 0) + g.inner.countP Dec.isPos) +
        (if g.middle.isPos then 1 else 0) ∧
      (parseGeometryS "0-0-2000").map nplies = .ok 1 ∧
      (parseGeometryS "1000-0-0").map nplies = .ok 2 ∧
      (parseGeometryS "400-[200]-800").map nplies = .ok 5 :=
  ⟨nplies_formula g, by decide, by decide, by decide⟩

/-- Witness for C2: the formula evaluated on the parsed Scenario A
geometry. -/
theorem C2_witness :
    nplies gStd = 2 * ((if gStd.outer.isPos then 1 else 0) + gStd.inner.countP Dec.isPos) +
        (if gStd.middle.isPos then 1 else 0) ∧ nplies gStd = 5 :=
  ⟨(C2_nplies_parse ("400-[200]-800".data) gStd (by decide)).1, by decide⟩

/-- Claim C4: for the configuration `nplies=1` and `p=1`,
`StackBuilder.build` raises `IndeterminateError` for every material and
loading configuration, rather than silently assigning a default `side_`
value. -/
theorem C4_monolith_indeterminate (g : Geometry) (lp : Loading) (mats : List String)
    (hn : nplies g = 1) (hp : lp.p = 1) :
    buildStack g lp mats = .error LamanaError.indeterminate := by
  unfold buildStack
  rw [if_pos ⟨hn, hp⟩]

/-- Witness for C4: the monolith `0-0-2000` with `p = 1` (Scenario C). -/
theorem C4_witness :
    buildStack gMono lp1 ["HA"] = .error LamanaError.indeterminate :=
  C4_monolith_indeterminate gMono lp1 ["HA"] (by decide) (by decide)

/-- Claim C5: for every valid geometry string `g`, parsing is round-trip
stable: reparsing the canonical string form yields a geometry with the
same canonical form, so
`canonical(parse(g)) == canonical(parse(canonical(parse(g))))`. -/
theorem C5_roundtrip (s : List Char) (g : Geometry)
    (h : parseGeometry s = .ok g) :
    ∃ g2, parseGeometry (canonical g) = .ok g2 ∧ canonical g2 = canonical g :=
  ⟨stabilizeG g, parse_canonical (parse_ok_inner_ne_nil h), canonical_stabilizeG g⟩

/-- Witness for C5: round trip through the shorthand `400-200-800`. -/
theorem C5_witness :
    ∃ g2, parseGeometry (canonical gStd) = .ok g2 ∧ canonical g2 = canonical gStd :=
  C5_roundtrip ("400-200-800".data) gStd (by decide)

theorem buildLFrame_ok {g : Geometry} {lp : Loading} {mats : List String}
    {rows : List Row} (hb : buildLFrame g lp mats = .ok rows) :
    rows = lframeRows g mats lp.p := by
  unfold buildLFrame buildStack at hb
  split at hb
  · simp [Except.map] at hb
  · simp only [Except.map] at hb
    exact (Except.ok.injEq _ _ ▸ hb).symm

/-- Claim C3: for every LFrame built by `build_LFrame`, each layer
contributes exactly `p` rows, and exactly one row in the whole table has
`label_ == neutralaxis` if and only if both `nplies` and `p` are odd; in
particular the 5-ply geometry `400-[200]-800` with `p=5` yields 25 rows
with the single `neutralaxis` row in the middle layer (layer 3). -/
theorem C3_row_counts (s : List Char) (g : Geometry) (lp : Loading)
    (mats : List String) (rows : List Row) (hg : parseGeometry s = .ok g)
    (hb : buildLFrame g lp mats = .ok rows) :
    (∀ ℓ < nplies g, (rows.filter (fun r => r.layer == ℓ + 1)).length = lp.p) ∧
    (rows.countP (fun r => r.label == Label.neutralaxis) =
      if nplies g % 2 = 1 ∧ lp.p % 2 = 1 then 1 else 0) ∧
    ((buildLFrame gStd lp5 matsHA).map List.length = .ok 25) ∧
    ((buildLFrame gStd lp5 matsHA).map
      (fun rs => (rs.filter (fun r => r.label == Label.neutralaxis)).map Row.layer) =
        .ok [3]) := by
  have hrows := buildLFrame_ok hb
  subst hrows
  refine ⟨?_, ?_, by decide, by decide⟩
  · intro ℓ hℓ
    rw [filter_layer g mats lp.p ℓ hℓ]
    simp
  · rw [lframeRows_eq_map, List.countP_map]
    by_cases hc : nplies g % 2 = 1 ∧ lp.p % 2 = 1
    · rw [if_pos hc]
      obtain ⟨hno, hpo⟩ := hc
      apply countP_range_one (a := lp.p * (nplies g / 2) + lp.p / 2)
      · have h2 : lp.p * (nplies g / 2) + lp.p = lp.p * (nplies g / 2 + 1) := by ring
        have h3 : lp.p * (nplies g / 2 + 1) ≤ lp.p * nplies g :=
          Nat.mul_le_mul_left lp.p (show nplies g / 2 + 1 ≤ nplies g by omega)
        have h4 : lp.p * nplies g = nplies g * lp.p := Nat.mul_comm _ _
        omega
      · intro j hj
        show (labelOf (nplies g) lp.p (j / lp.p) (j % lp.p) ==
          Label.neutralaxis) = true ↔ j = lp.p * (nplies g / 2) + lp.p / 2
        rw [beq_iff_eq, labelOf_neutral_iff]
        constructor
        · rintro ⟨-, hdiv, -, hmod⟩
          have hje := Nat.div_add_mod j lp.p
          rw [hdiv, hmod] at hje
          exact hje.symm
        · intro hj'
          subst hj'
          have hp0 : 0 < lp.p := by omega
          have hplt : lp.p / 2 < lp.p := by omega
          have hd : (lp.p * (nplies g / 2) + lp.p / 2) / lp.p = nplies g / 2 := by
            rw [Nat.mul_add_div hp0, Nat.div_eq_of_lt hplt]
            omega
          have hm : (lp.p * (nplies g / 2) + lp.p / 2) % lp.p = lp.p / 2 := by
            rw [Nat.mul_add_mod, Nat.mod_eq_of_lt hplt]
          exact ⟨hno, hd, hpo, hm⟩
    · rw [if_neg hc]
      apply countP_range_zero
      intro j hj hP
      have hP' : labelOf (nplies g) lp.p (j / lp.p) (j % lp.p) = Label.neutralaxis := by
        have : (labelOf (nplies g) lp.p (j / lp.p) (j % lp.p) ==
          Label.neutralaxis) = true := hP
        exact beq_iff_eq.mp this
      rw [labelOf_neutral_iff] at hP'
      exact hc ⟨hP'.1, hP'.2.2.1⟩

/-- Witness for C3: Scenario B, the middle layer of `400-[200]-800` with
`p=5` contributes 5 rows and the table holds exactly one neutral-axis
row. -/
theorem C3_witness :
    (rowsStd.filter (fun r => r.layer == 3)).length = 5 ∧
      rowsStd.countP (fun r => r.label == Label.neutralaxis) = 1 := by
  have h := C3_row_counts ("400-[200]-800".data) gStd lp5 matsHA rowsStd
    (by decide) (by rfl)
  refine ⟨h.1 2 (by decide), ?_⟩
  rw [h.2.1]
  decide

/-- Claim C7 (amended): `side_` follows the row position relative to the
laminate's geometric midpoint — rows strictly below the midpoint height
are tensile and rows strictly above are compressive; the exact-middle row
of an odd-ply, odd-`p` laminate lies exactly at the midpoint and is
assigned `none` when `p ≥ 3`, but `INDET` when `p = 1` (the single-point
ambiguity of the docs). -/
theorem C7_side_by_position (s : List Char) (g : Geometry) (lp : Loading)
    (mats : List String) (rows : List Row) (hg : parseGeometry s = .ok g)
    (hb : buildLFrame g lp mats = .ok rows) (j : ℕ) (hj : j < rows.length) :
    (rows[j].d < Htot g / 2 → rows[j].side = Side.tensile) ∧
    (Htot g / 2 < rows[j].d → rows[j].side = Side.compressive) ∧
    (rows.length % 2 = 1 → j = rows.length / 2 →
      rows[j].d = Htot g / 2 ∧
      rows[j].side = (if lp.p = 1 then Side.indet else Side.none)) := by
  have hrows := buildLFrame_ok hb
  subst hrows
  have hlen := lframeRows_length g mats lp.p
  have hjN : j < nplies g * lp.p := by omega
  have hget := lframeRows_getElem g mats lp.p j hj
  rw [hget]
  have hd : (rowAt g mats lp.p (j / lp.p) (j % lp.p)).d = dRow g lp.p j := rfl
  have hside : (rowAt g mats lp.p (j / lp.p) (j % lp.p)).side =
      sideOf lp.p (nplies g * lp.p) j := by
    show sideOf lp.p (nplies g * lp.p) (j / lp.p * lp.p + j % lp.p) = _
    rw [Nat.div_add_mod']
  rw [hd, hside, hlen]
  exact ⟨sideOf_of_lt_half hjN, sideOf_of_half_lt hjN,
    fun hodd hmid => sideOf_middle hjN hodd hmid⟩

/-- Witness for C7: the exact-middle row (index 12 of 25) of the
Scenario A LFrame with `p = 5` sits exactly at the midpoint height and is
assigned the neutral value. -/
theorem C7_witness :
    (rowsStd.get ⟨12, by decide⟩).d = Htot gStd / 2 ∧
      (rowsStd.get ⟨12, by decide⟩).side =
        (if lp5.p = 1 then Side.indet else Side.none) := by
  have h12 := C7_side_by_position ("400-[200]-800".data) gStd lp5 matsHA rowsStd
    (by decide) (by rfl) 12 (by decide)
  have hm := h12.2.2 (by decide) (by decide)
  constructor
  · rw [List.get_eq_getElem]
    exact hm.1
  · rw [List.get_eq_getElem]
    exact hm.2

/-- Counterexample to C7 as stated: for the odd-ply, odd-`p` laminate
`600-0-800` with `p=1`, the exact-middle row's `side_` is `INDET`, not
the neutral value `none`. -/
theorem C7_counterexample :
    (buildLFrame gTri lp1 matsHA).map (fun rs => rs.map Row.side) =
        .ok [Side.tensile, Side.indet, Side.compressive] ∧
      nplies gTri % 2 = 1 ∧ lp1.p % 2 = 1 ∧ Side.indet ≠ Side.none := by
  decide

/-- Claim C8 (amended): point classification is a function only of the
point index within the layer, `p`, and the layer position; for `p ≥ 2`
middle layers have two interfacial points, no discontinuity points, and a
neutralaxis point exactly when `p` is odd (middle layers exist only in
odd-ply laminates); for `p ≥ 2` every other layer has one interfacial
point and one discontinuity point at the shared interface; all remaining
points are internal, and monoliths have no discontinuities.  (For `p = 1`
the middle layer's single point is the neutral axis, so the two
interfacial points exist only when `p ≥ 2`.) -/
theorem C8_point_classification (s : List Char) (g : Geometry) (lp : Loading)
    (mats : List String) (rows : List Row) (hg : parseGeometry s = .ok g)
    (hb : buildLFrame g lp mats = .ok rows) (ℓ : ℕ) (hℓ : ℓ < nplies g) :
    ((rows.filter (fun r => r.layer == ℓ + 1)).map Row.label =
      (List.range lp.p).map (fun i => labelOf (nplies g) lp.p ℓ i)) ∧
    (2 ≤ lp.p → nplies g % 2 = 1 → ℓ = nplies g / 2 →
      (rows.filter (fun r => r.layer == ℓ + 1)).countP
          (fun r => r.label == Label.interfacial) = 2 ∧
        (rows.filter (fun r => r.layer == ℓ + 1)).countP
          (fun r => r.label == Label.discontinuity) = 0 ∧
        (rows.filter (fun r => r.layer == ℓ + 1)).countP
          (fun r => r.label == Label.neutralaxis) =
            (if lp.p % 2 = 1 then 1 else 0)) ∧
    (2 ≤ lp.p → ¬(nplies g % 2 = 1 ∧ ℓ = nplies g / 2) →
      (rows.filter (fun r => r.layer == ℓ + 1)).countP
          (fun r => r.label == Label.interfacial) = 1 ∧
        (rows.filter (fun r => r.layer == ℓ + 1)).countP
          (fun r => r.label == Label.discontinuity) = 1 ∧
        (rows.filter (fun r => r.layer == ℓ + 1)).countP
          (fun r => r.label == Label.neutralaxis) = 0) ∧
    (nplies g = 1 →
      (rows.filter (fun r => r.layer == ℓ + 1)).countP
        (fun r => r.label == Label.discontinuity) = 0) := by
  have hrows := buildLFrame_ok hb
  subst hrows
  rw [filter_layer g mats lp.p ℓ hℓ]
  refine ⟨by rw [List.map_map]; rfl, ?_, ?_, ?_⟩
  · intro hp2 hno hmid
    refine ⟨?_, ?_, ?_⟩
    · rw [countP_block_label]
      apply countP_range_two (a := 0) (b := lp.p - 1) (by omega) (by omega) (by omega)
      intro i hi
      rw [beq_iff_eq]
      unfold labelOf
      rw [if_pos ⟨hno, hmid⟩]
      split_ifs with h1 h2
      · simp only [false_iff]
        omega
      · simp only [true_iff]
        exact h2
      · simp only [false_iff]
        exact h2
    · rw [countP_block_label]
      apply countP_range_zero
      intro i hi hP
      rw [beq_iff_eq] at hP
      unfold labelOf at hP
      rw [if_pos ⟨hno, hmid⟩] at hP
      split_ifs at hP <;> simp_all
    · rw [countP_block_label]
      by_cases hpo : lp.p % 2 = 1
      · rw [if_pos hpo]
        apply countP_range_one (a := lp.p / 2) (by omega)
        intro i hi
        rw [beq_iff_eq, labelOf_neutral_iff]
        constructor
        · rintro ⟨-, -, -, hip⟩
          exact hip
        · intro hip
          exact ⟨hno, hmid, hpo, hip⟩
      · rw [if_neg hpo]
        apply countP_range_zero
        intro i hi hP
        rw [beq_iff_eq, labelOf_neutral_iff] at hP
        exact hpo hP.2.2.1
  · intro hp2 hnotmid
    by_cases hten : ℓ < nplies g / 2
    · refine ⟨?_, ?_, ?_⟩
      · rw [countP_block_label]
        apply countP_range_one (a := 0) (by omega)
        intro i hi
        rw [beq_iff_eq]
        unfold labelOf
        rw [if_neg hnotmid, if_pos hten]
        split_ifs with h1 h2 <;> simp_all
      · rw [countP_block_label]
        apply countP_range_one (a := lp.p - 1) (by omega)
        intro i hi
        rw [beq_iff_eq]
        unfold labelOf
        rw [if_neg hnotmid, if_pos hten]
        split_ifs with h1 h2 <;> simp_all <;> omega
      · rw [countP_block_label]
        apply countP_range_zero
        intro i hi hP
        rw [beq_iff_eq, labelOf_neutral_iff] at hP
        exact hnotmid ⟨hP.1, hP.2.1⟩
    · refine ⟨?_, ?_, ?_⟩
      · rw [countP_block_label]
        apply countP_range_one (a := lp.p - 1) (by omega)
        intro i hi
        rw [beq_iff_eq]
        unfold labelOf
        rw [if_neg hnotmid, if_neg hten]
        split_ifs with h1 <;> simp_all
      · rw [countP_block_label]
        apply countP_range_one (a := 0) (by omega)
        intro i hi
        rw [beq_iff_eq]
        unfold labelOf
        rw [if_neg hnotmid, if_neg hten]
        split_ifs with h1 h2 <;> simp_all <;> omega
      · rw [countP_block_label]
        apply countP_range_zero
        intro i hi hP
        rw [beq_iff_eq, labelOf_neutral_iff] at hP
        exact hnotmid ⟨hP.1, hP.2.1⟩
  · intro hn1
    have hmid : ℓ = nplies g / 2 := by omega
    have hno : nplies g % 2 = 1 := by omega
    rw [countP_block_label]
    apply countP_range_zero
    intro i hi hP
    rw [beq_iff_eq] at hP
    unfold labelOf at hP
    rw [if_pos ⟨hno, hmid⟩] at hP
    split_ifs at hP <;> simp_all

/-- Witness for C8: the middle layer of the Scenario A LFrame (`p = 5`)
has two interfacial points, no discontinuity, and one neutral-axis
point. -/
theorem C8_witness :
    (rowsStd.filter (fun r => r.layer == 3)).countP
        (fun r => r.label == Label.interfacial) = 2 ∧
      (rowsStd.filter (fun r => r.layer == 3)).countP
        (fun r => r.label == Label.discontinuity) = 0 := by
  have h := C8_point_classification ("400-[200]-800".data) gStd lp5 matsHA rowsStd
    (by decide) (by rfl) 2 (by decide)
  have hm := h.2.1 (by decide) (by decide) (by decide)
  exact ⟨hm.1, hm.2.1⟩

/-- Counterexample to C8 as stated: for `p = 1` the middle layer of the
3-ply `600-0-800` has no interfacial point at all (its single point is
the neutral axis), not two. -/
theorem C8_counterexample :
    nplies gTri % 2 = 1 ∧ 1 = nplies gTri / 2 ∧
      (buildLFrame gTri lp1 matsHA).map
        (fun rs => (rs.filter
          (fun r => r.layer == 2 && r.label == Label.interfacial)).length) = .ok 0 ∧
      (0 : ℕ) ≠ 2 := by
  decide

/-- Claim C9: overriding the material ordering changes only the cyclic
assignment of the `matl_` column in the `Snapshot`/`LFrame`; for every
geometry, `p`, the `nplies`, the `t_` column values and the total row
count are unchanged, and a material list shorter than the layer count is
cycled, not filtered. -/
theorem C9_material_override (g : Geometry) (lp : Loading) (mats mats' : List String) :
    ((snapshot g mats).map SnapRow.t = (snapshot g mats').map SnapRow.t) ∧
    ((snapshot g mats).length = (snapshot g mats').length) ∧
    ((buildLFrame g lp mats).map List.length =
      (buildLFrame g lp mats').map List.length) ∧
    ((buildLFrame g lp mats).map (List.map Row.t) =
      (buildLFrame g lp mats').map (List.map Row.t)) ∧
    (∀ i, ∀ hi : i < (snapshot g mats).length,
      (snapshot g mats)[i].matl = mats.getD (i % mats.length) "") := by
  refine ⟨snapshot_t_indep g mats mats', ?_, ?_, ?_, ?_⟩
  · rw [snapshot_length, snapshot_length]
  · unfold buildLFrame buildStack
    by_cases hc : nplies g = 1 ∧ lp.p = 1
    · rw [if_pos hc, if_pos hc]
      rfl
    · rw [if_neg hc, if_neg hc]
      simp only [Except.map]
      rw [lframeRows_length, lframeRows_length]
  · unfold buildLFrame buildStack
    by_cases hc : nplies g = 1 ∧ lp.p = 1
    · rw [if_pos hc, if_pos hc]
      rfl
    · rw [if_neg hc, if_neg hc]
      simp only [Except.map]
      rw [lframeRows_eq_map, lframeRows_eq_map, List.map_map, List.map_map]
      rfl
  · intro i hi
    exact snapshot_matl g mats i hi

/-- Witness for C9: Scenario E — overriding the ordering to
`['PSu','HA']` leaves the thickness column unchanged and cycles the
two-material list over the five layers (layer 3 takes index `2 mod 2 =
0`). -/
theorem C9_witness :
    ((snapshot gStd ["HA", "PSu"]).map SnapRow.t =
      (snapshot gStd ["PSu", "HA"]).map SnapRow.t) ∧
    ((snapshot gStd ["PSu", "HA"]).get ⟨2, by decide⟩).matl =
      ["PSu", "HA"].getD (2 % (["PSu", "HA"] : List String).length) "" := by
  have h := C9_material_override gStd lp5 ["PSu", "HA"] ["HA", "PSu"]
  refine ⟨(C9_material_override gStd lp5 ["HA", "PSu"] ["PSu", "HA"]).1, ?_⟩
  rw [List.get_eq_getElem]
  exact h.2.2.2.2 2 (by decide)

/-- Claim C10: if a model raises `IndeterminateError` from inside its
`_use_model_` hook during the handshake — as the bundled `Wilson_LT` does
when an `INDET` value is present in the side column, e.g. for `p=1`
middle layers — that exception is caught at the handshake isolation
boundary like any other model failure and results in rollback to the
unmodeled LFrame; it does not propagate out of the handshake to the
caller. -/
theorem C10_indet_rollback (lf : List Row) (fi : FeatureInput)
    (hr : 0 < fi.parameters.r) (ha : 0 < fi.parameters.a)
    (hRa : fi.parameters.a ≤ fi.parameters.R)
    (hindet : lf.any (fun r => r.side == Side.indet) = true) :
    wilsonLT lf fi false = .error PyExc.indeterminate ∧
      apply_model lf fi "Wilson_LT" =
        ({ lframe := lf, modelCols := Option.none }, fi) := by
  have hw : wilsonLT lf fi false = .error PyExc.indeterminate := by
    unfold wilsonLT
    rw [if_neg (by intro h; rw [h] at hr; exact lt_irrefl 0 hr),
      if_neg (by intro h; rw [h] at ha; exact lt_irrefl 0 ha),
      if_neg (by rintro (h | h) <;> linarith),
      if_neg (not_lt.mpr hRa),
      if_pos hindet]
  exact ⟨hw, by
    rw [apply_model_resolved lf fi "Wilson_LT" wilsonLT (by rfl),
      handshake_error wilsonLT lf fi PyExc.indeterminate hw]⟩

/-- Witness for C10: the 3-ply `600-0-800` LFrame with `p=1` carries an
`INDET` side value; `Wilson_LT` raises `IndeterminateError` and the
handshake rolls back. -/
theorem C10_witness :
    wilsonLT rowsTri fiTri false = .error PyExc.indeterminate ∧
      apply_model rowsTri fiTri "Wilson_LT" =
        ({ lframe := rowsTri, modelCols := Option.none }, fiTri) :=
  C10_indet_rollback rowsTri fiTri (by decide) (by decide) (by decide) (by decide)

/-- Claim C6: `parse(input)` raises `GeometryParseError` exactly when a
thickness token is non-numeric or negative, or the inner-layer bracket
syntax is malformed — in particular when a dash appears inside the inner
bracket, as in `400-[200-100-300]-800` (LPEP 001 micro-PEP 11); a single
unbracketed inner value is accepted and parses identically to its
bracketed normal form; and the result is independent of formatting
whitespace.  (A negative token necessarily contains a `-`, which the
dash-splitting grammar turns into a malformed shape, as in
`400-[-200]-800`.) -/
theorem C6_parse_errors :
    (parseGeometryS "400-[200-100-300]-800" = .error GeometryParseError.badShape) ∧
    (∀ s : List Char,
      parseGeometry (s.filter (fun c => ¬ (c = ' '))) = parseGeometry s) ∧
    (∀ a b c : List Char,
      (∀ x ∈ a, x ≠ '-' ∧ x ≠ ' ') →
      (∀ x ∈ b, x ≠ '-' ∧ x ≠ ' ' ∧ x ≠ '[' ∧ x ≠ ']' ∧ x ≠ ',') →
      (∀ x ∈ c, x ≠ '-' ∧ x ≠ ' ') →
      b.head? ≠ some '[' →
      parseGeometry (a ++ '-' :: (b ++ '-' :: c)) =
        parseGeometry (a ++ '-' :: ('[' :: (b ++ [']']) ++ '-' :: c))) ∧
    (parseGeometryS "400-[2x0]-800" = .error GeometryParseError.badToken) ∧
    (parseGeometryS "-400-[200]-800" = .error GeometryParseError.badShape) ∧
    (parseGeometryS "400-[-200]-800" = .error GeometryParseError.badShape) := by
  refine ⟨by decide, ?_, ?_, by decide, by decide, by decide⟩
  · intro s
    have hff : (s.filter (fun c => ¬ (c = ' '))).filter (fun c => ¬ (c = ' ')) =
        s.filter (fun c => ¬ (c = ' ')) :=
      List.filter_eq_self.mpr (fun a ha => (List.mem_filter.mp ha).2)
    unfold parseGeometry
    rw [hff]
  · intro a b c ha hb hc hhead
    have hfL : (a ++ '-' :: (b ++ '-' :: c)).filter (fun x => ¬ (x = ' ')) =
        a ++ '-' :: (b ++ '-' :: c) := by
      apply List.filter_eq_self.mpr
      intro x hx
      simp only [decide_eq_true_eq]
      rcases List.mem_append.mp hx with h | h
      · exact (ha x h).2
      · rcases List.mem_cons.mp h with h1 | h1
        · subst h1; decide
        · rcases List.mem_append.mp h1 with h2 | h2
          · exact (hb x h2).2.1
          · rcases List.mem_cons.mp h2 with h3 | h3
            · subst h3; decide
            · exact (hc x h3).2
    have hfR : (a ++ '-' :: ('[' :: (b ++ [']']) ++ '-' :: c)).filter
        (fun x => ¬ (x = ' ')) = a ++ '-' :: ('[' :: (b ++ [']']) ++ '-' :: c) := by
      apply List.filter_eq_self.mpr
      intro x hx
      simp only [decide_eq_true_eq]
      rcases List.mem_append.mp hx with h | h
      · exact (ha x h).2
      · rcases List.mem_cons.mp h with h1 | h1
        · subst h1; decide
        · rcases List.mem_append.mp h1 with h2 | h2
          · rcases List.mem_cons.mp h2 with h3 | h3
            · subst h3; decide
            · rcases List.mem_append.mp h3 with h4 | h4
              · exact (hb x h4).2.1
              · simp at h4; subst h4; decide
          · rcases List.mem_cons.mp h2 with h3 | h3
            · subst h3; decide
            · exact (hc x h3).2
    have hspL : splitOnC '-'
        ((a ++ '-' :: (b ++ '-' :: c)).filter (fun x => ¬ (x = ' '))) = [a, b, c] := by
      rw [hfL, splitOnC_append (fun x hx => (ha x hx).1),
        splitOnC_append (fun x hx => (hb x hx).1),
        splitOnC_nosep (fun x hx => (hc x hx).1)]
    have hspR : splitOnC '-'
        ((a ++ '-' :: ('[' :: (b ++ [']']) ++ '-' :: c)).filter (fun x => ¬ (x = ' '))) =
        [a, '[' :: (b ++ [']']), c] := by
      rw [hfR, splitOnC_append (fun x hx => (ha x hx).1),
        splitOnC_append (by
          intro x hx
          rcases List.mem_cons.mp hx with h | h
          · subst h; decide
          · rcases List.mem_append.mp h with h1 | h1
            · exact (hb x h1).1
            · simp at h1; subst h1; decide),
        splitOnC_nosep (fun x hx => (hc x hx).1)]
    rw [parseGeometry_parts hspL, parseGeometry_parts hspR]
    have hinner : parseInnerTok ('[' :: (b ++ [']'])) = parseInnerTok b := by
      unfold parseInnerTok
      simp only [List.head?_cons, List.tail_cons, reduceIte]
      rw [List.getLast?_concat, if_pos rfl, List.dropLast_concat]
      rw [splitOnC_nosep (fun x hx => (hb x hx).2.2.2.2)]
      rw [if_neg hhead]
      rw [show (List.mapM parseDec [b] : Option (List Dec)) =
          (parseDec b).map (fun d => [d]) from ?_]
      rw [List.mapM_cons]
      cases parseDec b <;> simp [List.mapM_nil, List.mapM.loop]
    rw [hinner]

/-- Witness for C6: the shorthand `400-200-800` parses identically to
`400-[200]-800`, and surrounding whitespace does not change the result. -/
theorem C6_witness :
    parseGeometry ("400".data ++ '-' :: ("200".data ++ '-' :: "800".data)) =
        parseGeometry ("400".data ++ '-' :: ('[' :: ("200".data ++ [']']) ++ '-' :: "800".data)) ∧
      parseGeometry (" 400 - [200] - 800 ".data.filter (fun c => ¬ (c = ' '))) =
        parseGeometry " 400 - [200] - 800 ".data :=
  ⟨C6_parse_errors.2.2.1 "400".data "200".data "800".data
      (by decide) (by decide) (by decide) (by decide),
    C6_parse_errors.2.1 " 400 - [200] - 800 ".data⟩

end Lamana
